import Mathlib

/-! # Hosting builder: job submission, completion polling and the web form

A shallow embedding of `lxc-lxd/apps/fg-hostingbuilder/main.go` and of the form handler
of `lxc-lxd/apps/web-form/handler.go`.

* Text handled by the Go code (`string`) is a `List Char`, that is, the text is taken to
  be valid UTF-8, on which the byte-wise functions of package `strings` agree with their
  versions on code points; identifiers that are only passed around (job names,
  diagnostics) are `String`.
* Go `int` and `time.Duration` are `Int`; the one counter whose arithmetic could wrap
  (`c` in `SmnTrigger`) is reduced to the signed 64-bit range explicitly.
* Calls that leave the process (`kubectl`, the clock) are answered by a script: the
  answer the outside world gives at each call.  Every effectful call the code makes
  is recorded in a trace, so that "was not called" is a statement about the trace.
* Output printed to stdout or to the logger is not modelled.
-/

namespace HostingBuilder

/-! ## Data model -/

/-- The Go struct `JobStatus` (the `Phase` field is never written by the code). -/
structure JobStatus where
  Succeeded : Int
  Failed : Int
  Active : Int
  deriving DecidableEq, Repr

/-- The errors `getJobStatus` and `isJobComplete` build with `fmt.Errorf`. -/
inductive QueryError where
  /-- Message `job %s not found or was deleted`. -/
  | notFound (jobName : String)
  /-- Message `failed to get job status: %v\nOutput: %s`. -/
  | statusFailed (err : String) (out : List Char)
  /-- Message `failed to get job conditions: %v\nOutput: %s`. -/
  | conditionsFailed (err : String) (out : List Char)
  deriving DecidableEq, Repr

/-- The errors `waitK8sJobCompletion` returns: one constructor for each `return` of a
non-nil error in its body. -/
inductive WaitError where
  /-- Message `job %s timed out after %v`. -/
  | timedOut (jobName : String)
  /-- The `return err` after a failed `getJobStatus`: the error is passed on unchanged -/
  | query (e : QueryError)
  /-- Message `job %s failed (via conditions)\nJob details:\n%s`. -/
  | failedViaConditions (jobName : String) (details : String)
  /-- Message `job %s failed (via status count)\nJob details:\n%s`. -/
  | failedViaStatusCount (jobName : String) (details : String)
  deriving DecidableEq, Repr

/-! ## The completion poller `waitK8sJobCompletion` -/

/-- One second as a `time.Duration` (nanoseconds). -/
def second : Int := 1000000000

/-- The constant `maxWaitTime = 10 * time.Minute`. -/
def maxWaitTime : Int := 10 * (60 * second)

/-- The constant `pollingInterval = 5 * time.Second`. -/
def pollingInterval : Int := 5 * second

/-- What the outside world answers during one iteration of the poll loop: the reading of
`time.Since(startTime)` at the top of the loop, the result of `getJobStatus`, the result
of `isJobComplete` as `(complete, failed)`, and the output of `kubectl describe`. An
answer is consumed only if the corresponding call is made. -/
structure PollInput where
  elapsed : Int
  status : Except QueryError JobStatus
  cond : Except QueryError (Bool × Bool)
  describe : String

/-- The effectful calls of the poll loop. -/
inductive PollEvent where
  | statusFetch
  | condFetch
  | describe
  | sleep
  deriving DecidableEq, Repr

/-- How one pass through the loop body ends: a `return` (with `nil` or an error), or
falling through to `time.Sleep` and the next pass. -/
inductive Step where
  | ret (err : Option WaitError)
  | next
  deriving DecidableEq, Repr

/-- The part of the loop body after the condition block: the fallback on the counts. -/
def countFallback (jobName : String) (status : JobStatus) (describe : String)
    (done : List PollEvent) : Step × List PollEvent :=
  if status.Succeeded > 0 then (.ret none, done)
  else if status.Failed > 0 then
    (.ret (some (.failedViaStatusCount jobName describe)), done ++ [.describe])
  else (.next, done ++ [.sleep])

/-- The body of the `for` loop of `waitK8sJobCompletion`. -/
def pollIteration (jobName : String) (inp : PollInput) : Step × List PollEvent :=
  if inp.elapsed > maxWaitTime then (.ret (some (.timedOut jobName)), [])
  else
    match inp.status with
    | .error e => (.ret (some (.query e)), [.statusFetch])
    | .ok status =>
      match inp.cond with
      | .ok (complete, failed) =>
        if complete then (.ret none, [.statusFetch, .condFetch])
        else if failed then
          (.ret (some (.failedViaConditions jobName inp.describe)),
            [.statusFetch, .condFetch, .describe])
        else countFallback jobName status inp.describe [.statusFetch, .condFetch]
      | .error _ => countFallback jobName status inp.describe [.statusFetch, .condFetch]

/-- The loop of `waitK8sJobCompletion`, from iteration `i` on, with the trace so far.
The first component is `none` when the fuel ran out before the loop returned; the trace
made up to that point is still reported. -/
def waitLoop (script : Nat → PollInput) (jobName : String) :
    Nat → Nat → List PollEvent → Option (Option WaitError) × List PollEvent
  | 0, _, tr => (none, tr)
  | fuel + 1, i, tr =>
    match pollIteration jobName (script i) with
    | (.ret r, evs) => (some r, tr ++ evs)
    | (.next, evs) => waitLoop script jobName fuel (i + 1) (tr ++ evs)

/-- The function `waitK8sJobCompletion`: the returned error (`some none` is `nil`) and the
trace of calls made. -/
def waitK8sJobCompletion (script : Nat → PollInput) (jobName : String) (fuel : Nat) :
    Option (Option WaitError) × List PollEvent :=
  waitLoop script jobName fuel 0 []

/-- The calls made by one iteration that leaves the job pending. -/
def pendingIteration : List PollEvent := [.statusFetch, .condFetch, .sleep]

/-- The calls made by `k` consecutive iterations that leave the job pending. -/
def pendingTrace (k : Nat) : List PollEvent := (List.replicate k pendingIteration).flatten

/-- The method `Error()` of the errors built by `getJobStatus` and `isJobComplete`. -/
def QueryError.Error : QueryError → String
  | .notFound jobName => "job " ++ jobName ++ " not found or was deleted"
  | .statusFailed err out =>
    "failed to get job status: " ++ err ++ "\nOutput: " ++ String.mk out
  | .conditionsFailed err out =>
    "failed to get job conditions: " ++ err ++ "\nOutput: " ++ String.mk out

/-- The method `Error()` of the errors returned by `waitK8sJobCompletion`; `10m0s` is
what `%v` prints for `maxWaitTime`. -/
def WaitError.Error : WaitError → String
  | .timedOut jobName => "job " ++ jobName ++ " timed out after 10m0s"
  | .query e => e.Error
  | .failedViaConditions jobName details =>
    "job " ++ jobName ++ " failed (via conditions)\nJob details:\n" ++ details
  | .failedViaStatusCount jobName details =>
    "job " ++ jobName ++ " failed (via status count)\nJob details:\n" ++ details

/-! ### Verdicts -/

/-- The iteration ended the wait with success: `return nil`. -/
def Step.isSucceeded : Step → Bool
  | .ret none => true
  | _ => false

/-- The iteration ended the wait with a job failure. -/
def Step.isFailed : Step → Bool
  | .ret (some (.failedViaConditions _ _)) => true
  | .ret (some (.failedViaStatusCount _ _)) => true
  | _ => false

/-- The iteration ended the wait with the timeout error. -/
def Step.isTimedOut : Step → Bool
  | .ret (some (.timedOut _)) => true
  | _ => false

/-- The iteration left the job pending: sleep and poll again. -/
def Step.isPending : Step → Bool
  | .next => true
  | _ => false

/-- The condition source reports success: conditions obtainable and `complete`. -/
def condSuccess (c : Except QueryError (Bool × Bool)) : Bool :=
  match c with
  | .ok (complete, _) => complete
  | .error _ => false

/-- The condition source reports failure: conditions obtainable and `failed`. -/
def condFailure (c : Except QueryError (Bool × Bool)) : Bool :=
  match c with
  | .ok (_, failed) => failed
  | .error _ => false

/-! ## Go library functions used by the parsers -/

/-- The predicate `unicode.IsSpace`, on code points. -/
def isSpace (c : Char) : Bool :=
  let n := c.toNat
  (9 ≤ n && n ≤ 13) || n == 32 || n == 133 || n == 160 || n == 5760 ||
    (8192 ≤ n && n ≤ 8202) || n == 8232 || n == 8233 || n == 8239 || n == 8287 ||
    n == 12288

/-- The function `strings.TrimSpace`: leading and trailing white space removed. -/
def TrimSpace (s : List Char) : List Char :=
  ((s.dropWhile isSpace).reverse.dropWhile isSpace).reverse

/-- The function `strings.Split` for a separator of one character (both calls of the
source split on one character): the pieces between the separators, at least one. -/
def Split (sep : Char) : List Char → List (List Char)
  | [] => [[]]
  | c :: cs =>
    if c = sep then [] :: Split sep cs
    else
      match Split sep cs with
      | [] => [[c]]
      | hd :: tl => (c :: hd) :: tl

/-- The function `strings.HasPrefix`. -/
def HasPrefix (s pre : List Char) : Bool := pre.isPrefixOf s

/-- The function `strings.Contains`: `sub` occurs in `s` as a contiguous block. -/
def Contains : List Char → List Char → Bool
  | [], sub => sub.isEmpty
  | c :: cs, sub => sub.isPrefixOf (c :: cs) || Contains cs sub

/-- A decimal digit, as `strconv` tests it. -/
def isDigit (c : Char) : Bool := 48 ≤ c.toNat && c.toNat ≤ 57

/-- The value of a run of decimal digits, most significant first. -/
def digitsValue (ds : List Char) : Nat :=
  ds.foldl (fun acc c => 10 * acc + (c.toNat - 48)) 0

/-- The function `strconv.Atoi` on a 64-bit platform: an optional sign followed by one or
more decimal digits, with a value in the range of `int`; `none` stands for a non-nil
error (syntax or range). -/
def Atoi (s : List Char) : Option Int :=
  let (neg, ds) :=
    match s with
    | '-' :: t => (true, t)
    | '+' :: t => (false, t)
    | _ => (false, s)
  if ds.isEmpty || !ds.all isDigit then none
  else
    let v : Int := if neg then -(digitsValue ds : Int) else (digitsValue ds : Int)
    if -9223372036854775808 ≤ v ∧ v ≤ 9223372036854775807 then some v else none

/-! ## The status query `getJobStatus` -/

/-- What `cmd.Output()` returns: the captured stdout and, when the command failed, the
text of the error. -/
structure CmdResult where
  out : List Char
  err : Option (List Char)

/-- The test of the line search in `getJobStatus`: the line contains a comma, does not
begin with `E` and does not contain `memcache`. -/
def isDataLine (line : List Char) : Bool :=
  Contains line [','] && !HasPrefix line ['E'] && !Contains line "memcache".toList

/-- The loop `for i := len(lines) - 1; i >= 0; i--` of `getJobStatus`, with `n = i + 1`
indices left to visit: the first trimmed line, going backwards, that passes the test, or
the empty string when the loop runs out. -/
def findDataLine (lines : List (List Char)) : Nat → List Char
  | 0 => []
  | i + 1 =>
    let line := TrimSpace (lines.getD i [])
    if isDataLine line then line else findDataLine lines i

/-- One of the three blocks `if len(values) >= i+1 && values[i] != "" && values[i] !=
"<none>"`: the field as an integer, or the zero the struct was created with. -/
def fieldValue (values : List (List Char)) (i : Nat) : Int :=
  if values.length ≥ i + 1 ∧ values.getD i [] ≠ [] ∧ values.getD i [] ≠ "<none>".toList then
    match Atoi (TrimSpace (values.getD i [])) with
    | some n => n
    | none => 0
  else 0

/-- The second half of `getJobStatus`: the data line is split on commas, padded with empty
fields up to three, and each of the first three fields is read. -/
def statusOfLine (dataLine : List Char) : JobStatus :=
  let values := Split ',' dataLine
  let values := values ++ List.replicate (3 - values.length) []
  { Succeeded := fieldValue values 0, Failed := fieldValue values 1,
    Active := fieldValue values 2 }

/-- The data line `getJobStatus` settles on: the line found by the search, or the raw
trimmed output when the search found none. -/
def dataLineOf (out : List Char) : List Char :=
  let rawOutput := TrimSpace out
  let lines := Split '\n' rawOutput
  let dataLine := findDataLine lines lines.length
  if dataLine = [] then rawOutput else dataLine

/-- The function `getJobStatus`, given what the `kubectl get job` command returned. -/
def getJobStatus (jobName : String) (cmd : CmdResult) : Except QueryError JobStatus :=
  match cmd.err with
  | some err =>
    if Contains cmd.out "NotFound".toList || Contains err "not found".toList then
      .error (.notFound jobName)
    else .error (.statusFailed (String.mk err) cmd.out)
  | none => .ok (statusOfLine (dataLineOf cmd.out))

/-- The trimmed lines that pass the test of the line search, in the order of the lines. -/
def dataLines (lines : List (List Char)) : List (List Char) :=
  (lines.map TrimSpace).filter isDataLine

/-- The function `strings.Join` for a separator of one character. -/
def Join (sep : Char) : List (List Char) → List Char
  | [] => []
  | [l] => l
  | l :: ls => l ++ sep :: Join sep ls

/-- A line that begins with the error marker `E` or contains the noise text `memcache`,
tested as the code tests it, on the trimmed line. -/
def isNoiseLine (line : List Char) : Bool :=
  HasPrefix (TrimSpace line) ['E'] || Contains (TrimSpace line) "memcache".toList

/-- A line that begins with `E` or contains `memcache`, tested on the line as it stands in
the output, without trimming. -/
def isRawNoiseLine (line : List Char) : Bool :=
  HasPrefix line ['E'] || Contains line "memcache".toList

/-- The output with every noise line removed. -/
def removeNoiseLines (out : List Char) : List Char :=
  Join '\n' ((Split '\n' out).filter (fun l => !isNoiseLine l))

/-- The output with every raw noise line removed. -/
def removeRawNoiseLines (out : List Char) : List Char :=
  Join '\n' ((Split '\n' out).filter (fun l => !isRawNoiseLine l))

/-! ## The entry point `SmnTrigger` -/

/-- The Go struct `sharedmodule.HostingDetail`. -/
structure HostingDetail where
  SubDomain : String
  Theme : String
  Email : String
  deriving DecidableEq, Repr

/-- The errors `SmnTrigger` returns, by the call they come from. -/
inductive TriggerError where
  /-- the error of `json.Unmarshal` -/
  | unmarshal (e : String)
  /-- the error of `generateK8sJob` -/
  | render (e : String)
  /-- the error of `applyK8s` -/
  | apply (e : String)
  /-- the error of `waitK8sJobCompletion` -/
  | wait (e : WaitError)
  deriving DecidableEq, Repr

/-- The pair `(interface{}, error)` that `SmnTrigger` returns; the value is a string or
`nil`. -/
structure Reply where
  value : Option String
  err : Option TriggerError
  deriving DecidableEq, Repr

/-- The calls `SmnTrigger` makes for the record at position `i` of the batch. -/
inductive TriggerEvent where
  | render (i : Nat) (d : HostingDetail)
  | apply (i : Nat) (yaml : List Char)
  | wait (i : Nat) (jobName : String)
  deriving DecidableEq, Repr

/-- What lies outside `SmnTrigger`: the two uses of `json.Unmarshal` (the payload gives the
messages of its records, a message gives a `HostingDetail`), the renderer, the outcome of
`kubectl apply` for the record at a position, and the answers to the poll that follows
it. -/
structure Env where
  decodeEvent : List Char → Except String (List (List Char))
  decodeMessage : List Char → Except String HostingDetail
  generateK8sJob : HostingDetail → Except String (List Char)
  applyK8s : Nat → List Char → Option String
  pollScript : Nat → Nat → PollInput

/-- Arithmetic on Go `int` wraps around in the signed 64-bit range. -/
def wrapInt (n : Int) : Int := (n + 9223372036854775808) % 18446744073709551616 - 9223372036854775808

/-- How the part of the loop body of `SmnTrigger` before `c++` ends. -/
inductive RecordStep where
  /-- a `return` inside the body -/
  | ret (r : Reply)
  /-- the record was rendered, submitted and its job seen to succeed -/
  | done
  /-- the poll did not return within the fuel -/
  | stuck
  deriving DecidableEq, Repr

/-- The loop body of `SmnTrigger` up to `c++`, for the record at position `i`. -/
def processRecord (env : Env) (fuel : Nat) (i : Nat) (msg : List Char) :
    RecordStep × List TriggerEvent :=
  match env.decodeMessage msg with
  | .error e => (.ret ⟨some "invalid data", some (.unmarshal e)⟩, [])
  | .ok smnMessage =>
    match env.generateK8sJob smnMessage with
    | .error e => (.ret ⟨none, some (.render e)⟩, [.render i smnMessage])
    | .ok yamlContent =>
      match env.applyK8s i yamlContent with
      | some e =>
        (.ret ⟨none, some (.apply e)⟩, [.render i smnMessage, .apply i yamlContent])
      | none =>
        let jobName := "hb-" ++ smnMessage.SubDomain
        let calls := [TriggerEvent.render i smnMessage, .apply i yamlContent, .wait i jobName]
        match (waitK8sJobCompletion (env.pollScript i) jobName fuel).1 with
        | none => (.stuck, calls)
        | some (some e) => (.ret ⟨none, some (.wait e)⟩, calls)
        | some none => (.done, calls)

/-- The loop `for _, record := range smnEvent.Record` of `SmnTrigger` with its counter `c`:
after a record is done `c` is incremented and the loop breaks when `c == 1`. Leaving the
loop, by `break` or at the end of the batch, leads to `return "ok", nil`. -/
def recordLoop (env : Env) (fuel : Nat) :
    List (List Char) → Nat → Int → List TriggerEvent → Option Reply × List TriggerEvent
  | [], _, _, tr => (some ⟨some "ok", none⟩, tr)
  | msg :: rest, i, c, tr =>
    match processRecord env fuel i msg with
    | (.ret r, evs) => (some r, tr ++ evs)
    | (.stuck, evs) => (none, tr ++ evs)
    | (.done, evs) =>
      let c := wrapInt (c + 1)
      if c = 1 then (some ⟨some "ok", none⟩, tr ++ evs)
      else recordLoop env fuel rest (i + 1) c (tr ++ evs)

/-- The method `SmnTrigger`: the reply (`none` when a poll did not return within the fuel)
and the calls made. -/
def SmnTrigger (env : Env) (fuel : Nat) (payload : List Char) :
    Option Reply × List TriggerEvent :=
  match env.decodeEvent payload with
  | .error e => (some ⟨some "invalid data", some (.unmarshal e)⟩, [])
  | .ok records => recordLoop env fuel records 0 1 []

/-- The calls made for a record that is processed to the end. -/
def doneEvents (env : Env) (fuel : Nat) (i : Nat) (msg : List Char) : List TriggerEvent :=
  (processRecord env fuel i msg).2

/-- The calls made for the records of a batch from position `i` on when each of them is
processed to the end. -/
def batchEvents (env : Env) (fuel : Nat) : List (List Char) → Nat → List TriggerEvent
  | [], _ => []
  | msg :: rest, i => doneEvents env fuel i msg ++ batchEvents env fuel rest (i + 1)

/-- An environment in which every step succeeds: a message is the subdomain, the manifest
is the subdomain again, every `kubectl apply` succeeds and every first poll finds the job
complete. -/
def happyEnv (records : List (List Char)) : Env where
  decodeEvent := fun _ => .ok records
  decodeMessage := fun m => .ok ⟨String.mk m, "twentytwentyfour", "a@b.com"⟩
  generateK8sJob := fun d => .ok d.SubDomain.toList
  applyK8s := fun _ _ => none
  pollScript := fun _ _ => ⟨0, .ok ⟨1, 0, 0⟩, .ok (true, false), ""⟩

/-- An environment in which every `kubectl apply` is rejected; the rest is as in
`happyEnv`. -/
def rejectingEnv (records : List (List Char)) : Env :=
  { happyEnv records with applyK8s := fun _ _ => some "exit status 1" }

/-! ## The shape of a status line and the reading of a field -/

/-- The number a digit character stands for. -/
def digitOf (c : Char) : Nat := c.toNat - 48

/-- The digits after the optional sign of a text. -/
def unsignedPart (s : List Char) : List Char :=
  match s with
  | '-' :: t => t
  | '+' :: t => t
  | _ => s

/-- The text is a decimal integer: an optional sign `+` or `-` followed by one or more
decimal digits. -/
def isDecimalInteger (s : List Char) : Bool :=
  !(unsignedPart s).isEmpty && (unsignedPart s).all isDigit

/-- The integer a decimal text denotes, of any size, by positional notation. -/
def decimalValue (s : List Char) : Int :=
  match s with
  | '-' :: t => -(Nat.ofDigits 10 (t.reverse.map digitOf) : Int)
  | _ => (Nat.ofDigits 10 ((unsignedPart s).reverse.map digitOf) : Int)

/-- The integer fits the Go type `int` on a 64-bit platform. -/
def inIntRange (v : Int) : Bool :=
  decide (-9223372036854775808 ≤ v ∧ v ≤ 9223372036854775807)

/-- A field of the expected shape: an integer, empty, or the placeholder `<none>`. -/
def isNumericField (f : List Char) : Bool :=
  f.isEmpty || f == "<none>".toList || isDecimalInteger (TrimSpace f)

/-- A line of the expected comma-separated numeric shape: three comma-separated fields, each
an integer, empty or the placeholder. -/
def isNumericShape (line : List Char) : Bool :=
  (Split ',' line).length == 3 && (Split ',' line).all isNumericField

/-- The field of a snapshot by position: succeeded, failed, active. -/
def JobStatus.count (s : JobStatus) (i : Nat) : Int :=
  match i with
  | 0 => s.Succeeded
  | 1 => s.Failed
  | _ => s.Active

/-! ## The condition query `isJobComplete` -/

/-- The test of the line search in `isJobComplete`: the line contains `True`, `False` or a
comma, does not begin with `E` and does not contain `memcache`. -/
def isConditionsLine (line : List Char) : Bool :=
  (Contains line "True".toList || Contains line "False".toList || Contains line [',']) &&
    !HasPrefix line ['E'] && !Contains line "memcache".toList

/-- The loop `for i := len(lines) - 1; i >= 0; i--` of `isJobComplete`, with `n = i + 1`
indices left to visit. -/
def findConditionsLine (lines : List (List Char)) : Nat → List Char
  | 0 => []
  | i + 1 =>
    let line := TrimSpace (lines.getD i [])
    if isConditionsLine line then line else findConditionsLine lines i

/-- The line `isJobComplete` settles on: the line found by the search, or the raw trimmed
output when the search found none. -/
def conditionsLineOf (out : List Char) : List Char :=
  let rawConditions := TrimSpace out
  let lines := Split '\n' rawConditions
  let conditionsLine := findConditionsLine lines lines.length
  if conditionsLine = [] then rawConditions else conditionsLine

/-- The two flags read from the conditions line: `complete` from the first field, `failed`
from the second when there is one. -/
def flagsOfLine (conditionsLine : List Char) : Bool × Bool :=
  let parts := Split ',' conditionsLine
  let complete := decide (parts.length > 0) && (TrimSpace (parts.getD 0 []) == "True".toList)
  let failed := decide (parts.length > 1) && (TrimSpace (parts.getD 1 []) == "True".toList)
  (complete, failed)

/-- The function `isJobComplete`, given what the `kubectl get job` command returned. -/
def isJobComplete (jobName : String) (cmd : CmdResult) : Except QueryError (Bool × Bool) :=
  match cmd.err with
  | some err =>
    if Contains cmd.out "NotFound".toList || Contains err "not found".toList then
      .error (.notFound jobName)
    else .error (.conditionsFailed (String.mk err) cmd.out)
  | none => .ok (flagsOfLine (conditionsLineOf cmd.out))

/-! ## The renderer `generateK8sJob` -/

/-- The Go struct `Config` of the hosting builder. -/
structure Config where
  HostingBuilderImage : String
  ImagePullPolicy : String
  AccessKey : String
  SecretKey : String
  ProjectName : String
  DependencyPath : String
  PrintOutFile : Bool
  K8sNamespace : String
  CciIamAuthenticatorPath : String
  KubectlPath : String
  LxdHost : String
  AnsibleUser : String
  AnsiblePassword : String
  DbRootHost : String
  DbRootUser : String
  DbRootPassword : String
  TopicUrn : String

/-- The map literal `generateK8sJob` passes to `tmpl.Execute`, as the list of its entries. -/
def templateData (appConfig : Config) (smnMessage : HostingDetail) : List (String × String) :=
  [("HostingBuilderImage", appConfig.HostingBuilderImage),
    ("ImagePullPolicy", appConfig.ImagePullPolicy),
    ("JobName", "hb-" ++ smnMessage.SubDomain),
    ("Namespace", appConfig.K8sNamespace),
    ("LXD_HOST", appConfig.LxdHost),
    ("ANSIBLE_USER", appConfig.AnsibleUser),
    ("ANSIBLE_PASSWORD", appConfig.AnsiblePassword),
    ("SUBDOMAIN", smnMessage.SubDomain),
    ("EMAIL", smnMessage.Email),
    ("DB_ROOT_HOST", appConfig.DbRootHost),
    ("DB_ROOT_USER", appConfig.DbRootUser),
    ("DB_ROOT_PASSWORD", appConfig.DbRootPassword),
    ("WORDPRESS_THEME", smnMessage.Theme),
    ("ACCESS_KEY", appConfig.AccessKey),
    ("SECRET_KEY", appConfig.SecretKey),
    ("TOPIC_URN", appConfig.TopicUrn)]

/-- The package `text/template` together with the embedded file
`kubernetes-templates/hostingbuilder.yaml`, which is not among the sources: the result of
`template.ParseFS` on that file and the function `Execute` computes from a parsed
template and the substitution map. -/
structure TemplateEngine (T : Type) where
  parseFS : Except String T
  execute : T → List (String × String) → Except String (List Char)

/-- What the file system answers to the debug writes: the errors, if any, of `os.Create`,
of `Write` on the created file and of `Close`. -/
structure DebugFile where
  createErr : Option String
  writeErr : Option String
  closeErr : Option String

/-- The value `os.Create` returns as its file: `nil` exactly when it fails. -/
def osCreate (fs : DebugFile) : Option Unit × Option String :=
  match fs.createErr with
  | some e => (none, some e)
  | none => (some (), none)

/-- The method `(*os.File).Write`: it checks its receiver first and returns `ErrInvalid`
for a nil file instead of dereferencing it. -/
def fileWrite (fs : DebugFile) (file : Option Unit) : Option String :=
  match file with
  | none => some "invalid argument"
  | some _ => fs.writeErr

/-- The method `(*os.File).Close`, which returns `ErrInvalid` for a nil file. -/
def fileClose (fs : DebugFile) (file : Option Unit) : Option String :=
  match file with
  | none => some "invalid argument"
  | some _ => fs.closeErr

/-- The errors `generateK8sJob` returns. -/
inductive RenderError where
  /-- Message `failed to parse template: %w`. -/
  | parseTemplate (e : String)
  /-- Message `failed to execute template: %w`. -/
  | executeTemplate (e : String)
  deriving DecidableEq, Repr

/-- The calls `generateK8sJob` makes on the debug file, with what each returned. -/
inductive RenderEvent where
  | create (path : String) (err : Option String)
  | write (bytes : List Char) (err : Option String)
  | close (err : Option String)
  deriving DecidableEq, Repr

/-- The function `generateK8sJob`: the pair `([]byte, error)` it returns and the calls made
on the debug file. The results of `Write` and `Close` are discarded by the code. -/
def generateK8sJob {T : Type} (appConfig : Config) (eng : TemplateEngine T) (fs : DebugFile)
    (smnMessage : HostingDetail) : Except RenderError (List Char) × List RenderEvent :=
  match eng.parseFS with
  | .error e => (.error (.parseTemplate e), [])
  | .ok tmpl =>
    match eng.execute tmpl (templateData appConfig smnMessage) with
    | .error e => (.error (.executeTemplate e), [])
    | .ok buf =>
      if appConfig.PrintOutFile then
        let (debugFile, err) := osCreate fs
        (.ok buf,
          [.create "./debug-telegram-job.yaml" err, .write buf (fileWrite fs debugFile),
            .close (fileClose fs debugFile)])
      else (.ok buf, [])

/-- A configuration with the default values of `loadConfig` and the debug flag as given. -/
def sampleConfig (printOut : Bool) : Config where
  HostingBuilderImage := "swr.ap-southeast-4.myhuaweicloud.com/demo-huawei/hostingbuilder:latest"
  ImagePullPolicy := "IfNotPresent"
  AccessKey := ""
  SecretKey := ""
  ProjectName := "ap-southeast-4"
  DependencyPath := "./code"
  PrintOutFile := printOut
  K8sNamespace := "default"
  CciIamAuthenticatorPath := ""
  KubectlPath := ""
  LxdHost := ""
  AnsibleUser := "root"
  AnsiblePassword := ""
  DbRootHost := "localhost"
  DbRootUser := "root"
  DbRootPassword := ""
  TopicUrn := ""

/-- A template engine whose template holds the job name alone. -/
def jobNameEngine : TemplateEngine Unit where
  parseFS := .ok ()
  execute := fun _ data =>
    match data.lookup "JobName" with
    | some v => .ok v.toList
    | none => .error "map has no entry for key \"JobName\""

/-! ## The web form handler `submitHandler`

The two patterns of the handler begin with `^` and end with `$`, which in Go match only at
the two ends of the text, so `MatchString` holds exactly when the whole text is in the
language of the expression between the anchors. -/

/-- The characters from `lo` to `hi`: a range `lo-hi` inside a character class. -/
def charRange (lo hi : Char) : List Char :=
  (List.range (hi.toNat + 1 - lo.toNat)).map (fun i => Char.ofNat (lo.toNat + i))

/-- A character class `[...]`, given by the list of its characters. -/
def charClass (cs : List Char) : RegularExpression Char :=
  cs.foldr (fun c r => RegularExpression.char c + r) 0

/-- The operator `?`: zero or one occurrence. -/
def reOptional (r : RegularExpression Char) : RegularExpression Char := r + 1

/-- The operator `+`: one or more occurrences. -/
def reOneOrMore (r : RegularExpression Char) : RegularExpression Char := r * r.star

/-- The operator `{2,}`: two or more occurrences. -/
def reTwoOrMore (r : RegularExpression Char) : RegularExpression Char := r * r * r.star

/-- The operator `{0,n}`: at most `n` occurrences. -/
def reUpTo (n : Nat) (r : RegularExpression Char) : RegularExpression Char := (r + 1) ^ n

/-- The class `[a-z0-9]`. -/
def lowerAlnum : List Char := charRange 'a' 'z' ++ charRange '0' '9'

/-- The classes `[a-zA-Z]` and `[a-zA-Z0-9]`. -/
def letters : List Char := charRange 'a' 'z' ++ charRange 'A' 'Z'

/-- The pattern `^[a-z0-9]([a-z0-9-]{0,61}[a-z0-9])?$` of `subdomainRegex`. -/
def subdomainRegex : RegularExpression Char :=
  charClass lowerAlnum *
    reOptional (reUpTo 61 (charClass (lowerAlnum ++ ['-'])) * charClass lowerAlnum)

/-- The pattern `^[a-zA-Z0-9._%+\-]+@[a-zA-Z0-9.\-]+\.[a-zA-Z]{2,}$` of `emailRegex`. -/
def emailRegex : RegularExpression Char :=
  reOneOrMore (charClass (letters ++ charRange '0' '9' ++ ['.', '_', '%', '+', '-'])) *
    RegularExpression.char '@' *
    reOneOrMore (charClass (letters ++ charRange '0' '9' ++ ['.', '-'])) *
    RegularExpression.char '.' *
    reTwoOrMore (charClass letters)

/-- The method `MatchString` of a pattern anchored at both ends. -/
def MatchString (re : RegularExpression Char) (s : String) : Bool := re.rmatch s.toList

/-- The Go struct `sharedmodule.Notification` (`Kind` is the field `Type`). -/
structure Notification where
  Kind : String
  Subject : String
  Message : String
  Receiver : String
  deriving DecidableEq, Repr

/-- The values `publishMessage` accepts: its type switch lets these two types through. -/
inductive SmnData where
  | notification (n : Notification)
  | hostingDetail (d : HostingDetail)
  deriving DecidableEq, Repr

/-- One call of `smnClient.PublishMessage`: the data that was marshalled and the topic. -/
structure PublishCall where
  data : SmnData
  topic : String
  deriving DecidableEq, Repr

/-- The fields of the web form's `Config` that the handler reads. -/
structure WebConfig where
  SmnTopicNotificationUrn : String
  SmnTopicHostingUrn : String
  RootDomainName : String

/-- The request as the handler reads it: the method and the three form values. -/
structure FormRequest where
  Method : String
  subdomain_name : String
  wordpress_theme : String
  email : String

/-- What lies outside the handler: the error, if any, of each call of `PublishMessage` (the
first is the notification, the second the hosting detail), whether executing the form
template writes to the response, and the error it returns, if any. -/
structure WebEnv where
  publishErr : Nat → Option String
  templateWrites : Bool
  templateErr : Option String

/-- What the handler does to the `http.ResponseWriter`. -/
inductive ResponseEvent where
  | writeHeader (code : Nat)
  | write
  deriving DecidableEq, Repr

/-- The status of the response: that of the first `WriteHeader`, or 200 when the body is
written first or nothing is written at all. -/
def statusOf : List ResponseEvent → Nat
  | .writeHeader code :: _ => code
  | _ => 200

/-- What the handler returns to the outside: the calls on the response writer and the calls
of `PublishMessage`, in order. -/
structure HandlerResult where
  response : List ResponseEvent
  published : List PublishCall
  deriving DecidableEq, Repr

/-- The function `http.Error`: it writes the header with the code, then the message. -/
def httpError (code : Nat) : List ResponseEvent := [.writeHeader code, .write]

/-- A call of `h.tmpl.ExecuteTemplate(w, "form.html", ...)` followed by its error branch, a
call of `http.Error` with status 500. -/
def renderForm (env : WebEnv) : List ResponseEvent :=
  (if env.templateWrites then [ResponseEvent.write] else []) ++
    (match env.templateErr with
      | some _ => httpError 500
      | none => [])

/-- The list `themeList` of the allowed themes. -/
def themeList : List String := ["twentytwentyfour", "twentytwentytwo", "twentytwentyfive"]

/-- The validation block of `submitHandler`: the messages appended to `formErr`. -/
def formErrors (req : FormRequest) : List String :=
  (if req.subdomain_name = "" then ["Subdomain name is required"] else []) ++
  (if !MatchString subdomainRegex req.subdomain_name then
      ["Invalid subdomain name: Invalid subdomain format. Only lowercase letters, numbers, and hyphens are allowed, and it cannot start or end with a hyphen."]
    else []) ++
  (if req.wordpress_theme = "" then ["WordPress theme is required"] else []) ++
  (if !themeList.contains req.wordpress_theme then ["Invalid WordPress theme selection"]
    else []) ++
  (if req.email = "" then ["Email is required"] else []) ++
  (if !MatchString emailRegex req.email then ["Invalid email format"] else [])

/-- The method `publishMessage` for the call number `k`: the error it returns. Marshalling
a struct of strings does not fail. -/
def publishMessage (env : WebEnv) (k : Nat) : Option String :=
  (env.publishErr k).map (fun e => "failed to publish message: " ++ e)

/-- The method `submitHandler`. After a failed publish the handler returns without writing
a response; the second test of `formErr` in the source cannot be reached with a non-empty
list. -/
def submitHandler (appConfig : WebConfig) (env : WebEnv) (req : FormRequest) : HandlerResult :=
  if req.Method ≠ "POST" then ⟨httpError 405, []⟩
  else
    let formErr := formErrors req
    if formErr.length > 0 then ⟨.writeHeader 400 :: renderForm env, []⟩
    else
      let dataNotification : Notification :=
        { Kind := "email"
          Subject := "Your hosting for " ++ req.subdomain_name ++ " is being processed"
          Message := "This detail your hosting.<br><br> Domain: " ++ req.subdomain_name ++ "." ++
            appConfig.RootDomainName ++ "<br> Theme: " ++ req.wordpress_theme ++
            "<br> Contact email: " ++ req.email
          Receiver := req.email }
      let first : PublishCall := ⟨.notification dataNotification, appConfig.SmnTopicNotificationUrn⟩
      match publishMessage env 0 with
      | some _ => ⟨[], [first]⟩
      | none =>
        let dataHosting : HostingDetail :=
          { SubDomain := req.subdomain_name, Theme := req.wordpress_theme, Email := req.email }
        let second : PublishCall := ⟨.hostingDetail dataHosting, appConfig.SmnTopicHostingUrn⟩
        match publishMessage env 1 with
        | some _ => ⟨[], [first, second]⟩
        | none => ⟨renderForm env, [first, second]⟩

/-- A subdomain as the form describes it: 1 to 63 characters, each a lowercase letter, a
digit or a hyphen, the first and the last not a hyphen. -/
def validSubdomain (s : List Char) : Bool :=
  decide (1 ≤ s.length) && decide (s.length ≤ 63) &&
    s.all (fun c => (decide (97 ≤ c.toNat) && decide (c.toNat ≤ 122)) || isDigit c || c == '-') &&
    s.head? != some '-' && s.getLast? != some '-'

/-- An environment in which every publish succeeds and the form is rendered. -/
def webEnvOk : WebEnv where
  publishErr := fun _ => none
  templateWrites := true
  templateErr := none

/-- The default topics and root domain of `loadConfig`. -/
def webConfigDefault : WebConfig where
  SmnTopicNotificationUrn := "notification"
  SmnTopicHostingUrn := "newhosting"
  RootDomainName := "onhuawei.cloud"

/-! # Theorems -/

/-! ## The poll loop -/

theorem countFallback_fst (jobName : String) (status : JobStatus) (d : String)
    (done : List PollEvent) :
    (countFallback jobName status d done).1 =
      if status.Succeeded > 0 then .ret none
      else if status.Failed > 0 then .ret (some (.failedViaStatusCount jobName d))
      else .next := by
  unfold countFallback
  split_ifs <;> rfl

theorem pollIteration_next_trace (jobName : String) (inp : PollInput)
    (h : (pollIteration jobName inp).1 = .next) :
    (pollIteration jobName inp).2 = pendingIteration := by
  rcases inp with ⟨el, st, cd, d⟩
  unfold pollIteration at h ⊢
  unfold countFallback at h ⊢
  rcases st with e | st <;> rcases cd with ce | ⟨c, f⟩ <;> simp only at h ⊢ <;>
    split_ifs at h ⊢ <;> simp_all [pendingIteration]

theorem pendingTrace_succ (k : Nat) :
    pendingTrace (k + 1) = pendingTrace k ++ pendingIteration := by
  unfold pendingTrace
  rw [List.replicate_succ', List.flatten_append]
  simp

theorem pendingTrace_succ_left (k : Nat) :
    pendingTrace (k + 1) = pendingIteration ++ pendingTrace k := by
  unfold pendingTrace
  rw [List.replicate_succ]
  simp

theorem waitLoop_succ (script : Nat → PollInput) (jobName : String) (fuel i : Nat)
    (tr : List PollEvent) :
    waitLoop script jobName (fuel + 1) i tr =
      match pollIteration jobName (script i) with
      | (.ret r, evs) => (some r, tr ++ evs)
      | (.next, evs) => waitLoop script jobName fuel (i + 1) (tr ++ evs) := rfl

theorem waitLoop_pending (script : Nat → PollInput) (jobName : String) (k : Nat) :
    ∀ (fuel j : Nat) (tr : List PollEvent),
      (∀ i, i < k → (pollIteration jobName (script (j + i))).1 = .next) →
      waitLoop script jobName (fuel + k) j tr =
        waitLoop script jobName fuel (j + k) (tr ++ pendingTrace k) := by
  induction k with
  | zero => intro fuel j tr _; simp [pendingTrace]
  | succ k ih =>
    intro fuel j tr h
    have h0 : (pollIteration jobName (script j)).1 = .next := h 0 (Nat.succ_pos k)
    have ht := pollIteration_next_trace jobName (script j) h0
    rw [show fuel + (k + 1) = (fuel + k) + 1 by omega, waitLoop_succ]
    rcases hp : pollIteration jobName (script j) with ⟨st, evs⟩
    rw [hp] at h0 ht
    simp only at h0 ht
    subst h0 ht
    simp only
    rw [ih fuel (j + 1) (tr ++ pendingIteration)]
    · rw [show j + 1 + k = j + (k + 1) by omega, List.append_assoc,
        ← pendingTrace_succ_left]
    · intro i hi
      have := h (i + 1) (by omega)
      rwa [show j + (i + 1) = j + 1 + i by omega] at this

theorem pollIteration_fst_ok (jobName : String) (inp : PollInput) (status : JobStatus)
    (hT : inp.elapsed ≤ maxWaitTime) (hS : inp.status = .ok status) :
    (pollIteration jobName inp).1 =
      if condSuccess inp.cond = true then .ret none
      else if condFailure inp.cond = true then
        .ret (some (.failedViaConditions jobName inp.describe))
      else if status.Succeeded > 0 then .ret none
      else if status.Failed > 0 then
        .ret (some (.failedViaStatusCount jobName inp.describe))
      else .next := by
  rcases inp with ⟨el, st, cd, d⟩
  simp only at hT hS
  subst hS
  have hT' : ¬ el > maxWaitTime := not_lt.mpr hT
  unfold pollIteration
  simp only [hT', if_false]
  rcases cd with ce | ⟨c, f⟩
  · simp [condSuccess, condFailure, countFallback_fst]
  · cases c <;> cases f <;> simp [condSuccess, condFailure, countFallback_fst]

/-- C1. In a poll iteration within the time budget whose status fetch succeeded, the
verdict follows the precedence: obtainable conditions with `complete` give success
(whatever the counts and `failed` are); else obtainable conditions with `failed` give the
failure via conditions, carrying the describe text; else a positive succeeded count gives
success; else a positive failed count gives the failure via status count; else the job
stays pending. -/
theorem poll_precedence (jobName : String) (inp : PollInput) (status : JobStatus)
    (hT : inp.elapsed ≤ maxWaitTime) (hS : inp.status = .ok status) :
    (condSuccess inp.cond = true → (pollIteration jobName inp).1 = .ret none) ∧
    (condSuccess inp.cond = false → condFailure inp.cond = true →
      (pollIteration jobName inp).1 =
        .ret (some (.failedViaConditions jobName inp.describe))) ∧
    (condSuccess inp.cond = false → condFailure inp.cond = false →
      status.Succeeded > 0 → (pollIteration jobName inp).1 = .ret none) ∧
    (condSuccess inp.cond = false → condFailure inp.cond = false →
      ¬ status.Succeeded > 0 → status.Failed > 0 →
      (pollIteration jobName inp).1 =
        .ret (some (.failedViaStatusCount jobName inp.describe))) ∧
    (condSuccess inp.cond = false → condFailure inp.cond = false →
      ¬ status.Succeeded > 0 → ¬ status.Failed > 0 →
      (pollIteration jobName inp).1 = .next) := by
  rw [pollIteration_fst_ok jobName inp status hT hS]
  refine ⟨?_, ?_, ?_, ?_, ?_⟩
  · intro h; simp [h]
  · intro h1 h2; simp [h1, h2]
  · intro h1 h2 h3; simp [h1, h2, h3]
  · intro h1 h2 h3 h4; simp [h1, h2, h3, h4]
  · intro h1 h2 h3 h4; simp [h1, h2, h3, h4]

theorem poll_precedence_witness :
    (pollIteration "hb-acme"
      ⟨0, .ok ⟨0, 3, 0⟩, .ok (true, true), "details"⟩).1 = .ret none :=
  (poll_precedence "hb-acme" ⟨0, .ok ⟨0, 3, 0⟩, .ok (true, true), "details"⟩ ⟨0, 3, 0⟩
    (by decide) rfl).1 rfl

/-- C2. In a poll iteration within the time budget whose status fetch succeeded, the
verdict is sound and complete for the two signal sources: success only if the conditions
report complete or the succeeded count is positive, failure only if the conditions report
failed or the failed count is positive, and pending exactly when neither source reports
success or failure, in which case the iteration ends with the sleep. -/
theorem poll_sound_complete (jobName : String) (inp : PollInput) (status : JobStatus)
    (hT : inp.elapsed ≤ maxWaitTime) (hS : inp.status = .ok status) :
    ((pollIteration jobName inp).1.isSucceeded = true →
      condSuccess inp.cond = true ∨ status.Succeeded > 0) ∧
    ((pollIteration jobName inp).1.isFailed = true →
      condFailure inp.cond = true ∨ status.Failed > 0) ∧
    ((pollIteration jobName inp).1.isPending = true ↔
      (condSuccess inp.cond = false ∧ ¬ status.Succeeded > 0) ∧
      (condFailure inp.cond = false ∧ ¬ status.Failed > 0)) ∧
    ((pollIteration jobName inp).1.isPending = true →
      (pollIteration jobName inp).2 = [.statusFetch, .condFetch, .sleep]) := by
  refine ⟨?_, ?_, ?_, ?_⟩
  · rw [pollIteration_fst_ok jobName inp status hT hS]
    split_ifs <;> simp_all [Step.isSucceeded]
  · rw [pollIteration_fst_ok jobName inp status hT hS]
    split_ifs <;> simp_all [Step.isFailed]
  · rw [pollIteration_fst_ok jobName inp status hT hS]
    split_ifs <;> simp_all [Step.isPending]
  · intro h
    apply pollIteration_next_trace
    cases hst : (pollIteration jobName inp).1 with
    | next => rfl
    | ret r => rw [hst] at h; exact absurd h (by simp [Step.isPending])

theorem poll_sound_complete_witness :
    (pollIteration "hb-acme"
      ⟨0, .ok ⟨0, 0, 1⟩, .error (.notFound "hb-acme"), ""⟩).1.isPending = true :=
  (poll_sound_complete "hb-acme" ⟨0, .ok ⟨0, 0, 1⟩, .error (.notFound "hb-acme"), ""⟩
    ⟨0, 0, 1⟩ (by decide) rfl).2.2.1.mpr ⟨⟨rfl, by decide⟩, ⟨rfl, by decide⟩⟩

theorem waitLoop_first_return (script : Nat → PollInput) (jobName : String) (k : Nat)
    (r : Option WaitError) (evs : List PollEvent)
    (hP : ∀ i, i < k → (pollIteration jobName (script i)).1 = .next)
    (hR : pollIteration jobName (script k) = (.ret r, evs)) (fuel : Nat) (hF : k < fuel) :
    waitK8sJobCompletion script jobName fuel = (some r, pendingTrace k ++ evs) := by
  obtain ⟨f, rfl⟩ : ∃ f, fuel = (f + 1) + k := ⟨fuel - k - 1, by omega⟩
  unfold waitK8sJobCompletion
  rw [waitLoop_pending script jobName k (f + 1) 0 [] (by simpa using hP)]
  rw [waitLoop_succ]
  simp [hR]

theorem waitLoop_trace_extends (script : Nat → PollInput) (jobName : String) :
    ∀ (fuel i : Nat) (tr : List PollEvent),
      tr <+: (waitLoop script jobName fuel i tr).2 := by
  intro fuel
  induction fuel with
  | zero => intro i tr; exact List.prefix_refl tr
  | succ fuel ih =>
    intro i tr
    rw [waitLoop_succ]
    rcases hp : pollIteration jobName (script i) with ⟨st, evs⟩
    cases st with
    | ret r => exact List.prefix_append tr evs
    | next => exact (List.prefix_append tr evs).trans (ih (i + 1) (tr ++ evs))

theorem pollIteration_trace_starts (jobName : String) (inp : PollInput)
    (status : JobStatus) (hT : inp.elapsed ≤ maxWaitTime) (hS : inp.status = .ok status) :
    [PollEvent.statusFetch, PollEvent.condFetch] <+: (pollIteration jobName inp).2 := by
  rcases inp with ⟨el, st, cd, d⟩
  simp only at hT hS
  subst hS
  have hT' : ¬ el > maxWaitTime := not_lt.mpr hT
  unfold pollIteration countFallback
  simp only [hT', if_false]
  rcases cd with ce | ⟨c, f⟩ <;> simp only <;> split_ifs <;>
    first
      | exact List.prefix_refl _
      | exact List.prefix_append _ _

theorem pollIteration_count_statusFetch (jobName : String) (inp : PollInput) :
    (pollIteration jobName inp).2.count .statusFetch ≤ 1 := by
  rcases inp with ⟨el, st, cd, d⟩
  unfold pollIteration countFallback
  rcases st with e | st <;> rcases cd with ce | ⟨c, f⟩ <;> simp only <;> split_ifs <;>
    simp [List.count_cons]

theorem count_pendingTrace (k : Nat) : (pendingTrace k).count .statusFetch = k := by
  induction k with
  | zero => rfl
  | succ k ih =>
    rw [pendingTrace_succ, List.count_append, ih]
    rfl

theorem pollIteration_timedOut (jobName : String) (inp : PollInput)
    (h : inp.elapsed > maxWaitTime) :
    pollIteration jobName inp = (.ret (some (.timedOut jobName)), []) := by
  unfold pollIteration
  simp [h]

theorem elapsed_lower_bound (script : Nat → PollInput) (h0 : 0 ≤ (script 0).elapsed)
    (hclk : ∀ i, (script i).elapsed + pollingInterval ≤ (script (i + 1)).elapsed) (n : Nat) :
    (n : Int) * pollingInterval ≤ (script n).elapsed := by
  induction n with
  | zero => simpa using h0
  | succ n ih =>
    have := hclk n
    push_cast
    linarith

/-- C3. In an iteration that starts within the time budget, a failed status fetch ends the
wait at once with that same error: the iteration makes the status fetch and no other call
(no condition fetch, no describe, no sleep), and the whole wait returns the error with a
trace that stops at that fetch, however much of the budget remains. -/
theorem status_error_returned (script : Nat → PollInput) (jobName : String) (k : Nat)
    (e : QueryError)
    (hP : ∀ i, i < k → (pollIteration jobName (script i)).1 = .next)
    (hT : (script k).elapsed ≤ maxWaitTime) (hE : (script k).status = .error e) :
    pollIteration jobName (script k) = (.ret (some (.query e)), [.statusFetch]) ∧
    ∀ fuel, k < fuel →
      waitK8sJobCompletion script jobName fuel =
        (some (some (.query e)), pendingTrace k ++ [.statusFetch]) := by
  have hR : pollIteration jobName (script k) = (.ret (some (.query e)), [.statusFetch]) := by
    have hT' : ¬ (script k).elapsed > maxWaitTime := not_lt.mpr hT
    unfold pollIteration
    simp only [hT', if_false, hE]
  exact ⟨hR, fun fuel hF => waitLoop_first_return script jobName k _ _ hP hR fuel hF⟩

theorem status_error_returned_witness :
    waitK8sJobCompletion
      (fun _ => ⟨0, .error (.notFound "hb-acme"), .ok (true, false), ""⟩) "hb-acme" 1 =
      (some (some (.query (.notFound "hb-acme"))), [.statusFetch]) :=
  (status_error_returned (fun _ => ⟨0, .error (.notFound "hb-acme"), .ok (true, false), ""⟩)
    "hb-acme" 0 (.notFound "hb-acme") (fun _ h => absurd h (Nat.not_lt_zero _))
    (by decide) rfl).2 1 (by decide)

theorem countFallback_eq (jobName : String) (status : JobStatus) (d : String) :
    countFallback jobName status d [.statusFetch, .condFetch] =
      if status.Succeeded > 0 then (.ret none, [.statusFetch, .condFetch])
      else if status.Failed > 0 then
        (.ret (some (.failedViaStatusCount jobName d)), [.statusFetch, .condFetch, .describe])
      else (.next, pendingIteration) := by
  unfold countFallback
  split_ifs <;> rfl

theorem pollIteration_cond_error (jobName : String) (inp : PollInput) (status : JobStatus)
    (ce : QueryError) (hT : inp.elapsed ≤ maxWaitTime) (hS : inp.status = .ok status)
    (hC : inp.cond = .error ce) :
    pollIteration jobName inp =
      countFallback jobName status inp.describe [.statusFetch, .condFetch] := by
  have hT' : ¬ inp.elapsed > maxWaitTime := not_lt.mpr hT
  unfold pollIteration
  simp only [hT', if_false, hS, hC]

/-- C4. In an iteration whose status fetch succeeds and whose condition fetch fails, the
condition error is never returned and has no influence on the outcome: the counts alone
decide (a positive succeeded count gives success, else a positive failed count gives the
failure via status count, else the job stays pending, the loop sleeps and goes on), and
the next iteration, when it starts within the budget and its status fetch succeeds,
fetches the conditions again. -/
theorem cond_error_not_surfaced (script : Nat → PollInput) (jobName : String) (k : Nat)
    (status : JobStatus) (ce : QueryError)
    (hP : ∀ i, i < k → (pollIteration jobName (script i)).1 = .next)
    (hT : (script k).elapsed ≤ maxWaitTime) (hS : (script k).status = .ok status)
    (hC : (script k).cond = .error ce) :
    (status.Succeeded > 0 →
      pollIteration jobName (script k) = (.ret none, [.statusFetch, .condFetch])) ∧
    (¬ status.Succeeded > 0 → status.Failed > 0 →
      pollIteration jobName (script k) =
        (.ret (some (.failedViaStatusCount jobName (script k).describe)),
          [.statusFetch, .condFetch, .describe])) ∧
    (¬ status.Succeeded > 0 → ¬ status.Failed > 0 →
      pollIteration jobName (script k) = (.next, [.statusFetch, .condFetch, .sleep])) ∧
    (∀ ce2 : QueryError, (pollIteration jobName (script k)).1 ≠ .ret (some (.query ce2))) ∧
    (∀ ce2 : QueryError,
      pollIteration jobName { script k with cond := .error ce2 } =
        pollIteration jobName (script k)) ∧
    (¬ status.Succeeded > 0 → ¬ status.Failed > 0 →
      (script (k + 1)).elapsed ≤ maxWaitTime →
      (∃ status2, (script (k + 1)).status = .ok status2) →
      ∀ fuel, k + 2 ≤ fuel →
        (pendingTrace (k + 1) ++ [.statusFetch, .condFetch]) <+:
          (waitK8sJobCompletion script jobName fuel).2) := by
  have hE := pollIteration_cond_error jobName (script k) status ce hT hS hC
  rw [countFallback_eq] at hE
  refine ⟨?_, ?_, ?_, ?_, ?_, ?_⟩
  · intro h1; rw [hE]; simp [h1]
  · intro h1 h2; rw [hE]; simp [h1, h2]
  · intro h1 h2; rw [hE]; simp [h1, h2, pendingIteration]
  · intro ce2; rw [hE]; split_ifs <;> simp
  · intro ce2
    rw [pollIteration_cond_error jobName { script k with cond := .error ce2 } status ce2
      hT hS rfl, pollIteration_cond_error jobName (script k) status ce hT hS hC]
  · intro h1 h2 hT2 hS2 fuel hF
    obtain ⟨status2, hS2⟩ := hS2
    have hk : (pollIteration jobName (script k)).1 = .next := by
      rw [hE]; simp [h1, h2]
    have hP2 : ∀ i, i < k + 1 → (pollIteration jobName (script (0 + i))).1 = .next := by
      intro i hi
      rw [Nat.zero_add]
      rcases Nat.lt_succ_iff_lt_or_eq.mp hi with h | h
      · exact hP i h
      · rw [h]; exact hk
    obtain ⟨f, rfl⟩ : ∃ f, fuel = (f + 1) + (k + 1) := ⟨fuel - (k + 1) - 1, by omega⟩
    unfold waitK8sJobCompletion
    rw [waitLoop_pending script jobName (k + 1) (f + 1) 0 [] hP2, waitLoop_succ]
    have hpre := pollIteration_trace_starts jobName (script (k + 1)) status2 hT2 hS2
    simp only [Nat.zero_add, List.nil_append]
    rcases hp : pollIteration jobName (script (k + 1)) with ⟨st, evs⟩
    rw [hp] at hpre
    have hpre2 : (pendingTrace (k + 1) ++ [PollEvent.statusFetch, PollEvent.condFetch]) <+:
        (pendingTrace (k + 1) ++ evs) := (List.prefix_append_right_inj _).mpr hpre
    cases st with
    | ret r => exact hpre2
    | next => exact hpre2.trans (waitLoop_trace_extends script jobName f _ _)

theorem cond_error_not_surfaced_witness :
    pollIteration "hb-acme"
      ⟨0, .ok ⟨1, 0, 0⟩, .error (.conditionsFailed "exit status 1" []), ""⟩ =
      (.ret none, [.statusFetch, .condFetch]) :=
  (cond_error_not_surfaced
    (fun _ => ⟨0, .ok ⟨1, 0, 0⟩, .error (.conditionsFailed "exit status 1" []), ""⟩)
    "hb-acme" 0 ⟨1, 0, 0⟩ (.conditionsFailed "exit status 1" [])
    (fun _ h => absurd h (Nat.not_lt_zero _)) (by decide) rfl rfl).1 (by decide)

/-- C5, counterexample. An iteration that starts with the elapsed time exactly equal to the
maximum wait does not return the timeout error: it fetches the status and the conditions
and, the job being still active, sleeps. -/
theorem timeout_at_deadline_counterexample :
    (⟨maxWaitTime, .ok ⟨0, 0, 1⟩, .ok (false, false), ""⟩ : PollInput).elapsed ≥ maxWaitTime ∧
    pollIteration "hb-acme" ⟨maxWaitTime, .ok ⟨0, 0, 1⟩, .ok (false, false), ""⟩ =
      (.next, [.statusFetch, .condFetch, .sleep]) ∧
    (pollIteration "hb-acme"
      ⟨maxWaitTime, .ok ⟨0, 0, 1⟩, .ok (false, false), ""⟩).1.isTimedOut = false := by
  refine ⟨le_refl _, ?_, ?_⟩ <;> decide

/-- C5, amended. The wait returns the timeout error exactly when an iteration starts with
the elapsed time strictly greater than the maximum wait (10 minutes): such an iteration
returns the error naming the job and the timeout without making any call, an iteration
that starts with elapsed time at most the maximum wait (equality included) never returns
the timeout error, and when every earlier iteration left the job pending the whole wait
stops at the first iteration that starts after the deadline. -/
theorem timeout_after_deadline (script : Nat → PollInput) (jobName : String) (k : Nat)
    (hP : ∀ i, i < k → (pollIteration jobName (script i)).1 = .next)
    (hT : (script k).elapsed > maxWaitTime) :
    (∀ inp : PollInput, inp.elapsed > maxWaitTime →
      pollIteration jobName inp = (.ret (some (.timedOut jobName)), [])) ∧
    (∀ inp : PollInput, inp.elapsed ≤ maxWaitTime →
      (pollIteration jobName inp).1.isTimedOut = false) ∧
    (∀ i, i < k → (script i).elapsed ≤ maxWaitTime) ∧
    (∀ fuel, k < fuel →
      waitK8sJobCompletion script jobName fuel =
        (some (some (.timedOut jobName)), pendingTrace k)) ∧
    (WaitError.timedOut jobName).Error = "job " ++ jobName ++ " timed out after 10m0s" ∧
    maxWaitTime = 10 * 60 * 1000000000 := by
  refine ⟨fun inp h => pollIteration_timedOut jobName inp h, ?_, ?_, ?_, rfl, by decide⟩
  · intro inp h
    rcases inp with ⟨el, st, cd, d⟩
    have hT' : ¬ el > maxWaitTime := not_lt.mpr h
    unfold pollIteration countFallback
    rcases st with e | st <;> rcases cd with ce | ⟨c, f⟩ <;> simp only [hT', if_false] <;>
      (try split_ifs) <;> rfl
  · intro i hi
    by_contra hc
    have := pollIteration_timedOut jobName (script i) (not_le.mp hc)
    have h2 := hP i hi
    rw [this] at h2
    exact Step.noConfusion h2
  · intro fuel hF
    have := waitLoop_first_return script jobName k _ _ hP
      (pollIteration_timedOut jobName (script k) hT) fuel hF
    simpa using this

theorem timeout_after_deadline_witness :
    waitK8sJobCompletion
      (fun i => ⟨i * (maxWaitTime + 1), .ok ⟨0, 0, 1⟩, .ok (false, false), ""⟩) "hb-acme" 2 =
      (some (some (.timedOut "hb-acme")), pendingTrace 1) :=
  (timeout_after_deadline
    (fun i => ⟨i * (maxWaitTime + 1), .ok ⟨0, 0, 1⟩, .ok (false, false), ""⟩) "hb-acme" 1
    (by intro i hi; obtain rfl : i = 0 := by omega
        decide)
    (by decide)).2.2.2.1 2 (by decide)

/-- C6. When the clock advances by at least the poll interval (5 seconds) between the starts
of consecutive iterations, the wait returns for every sequence of query results: there is
one result that every run with fuel for 122 iterations or more returns, and its trace holds
at most 121 status fetches. -/
theorem poll_loop_bounded (script : Nat → PollInput) (jobName : String)
    (h0 : 0 ≤ (script 0).elapsed)
    (hclk : ∀ i, (script i).elapsed + pollingInterval ≤ (script (i + 1)).elapsed) :
    ∃ (r : Option WaitError) (tr : List PollEvent),
      (∀ fuel, 122 ≤ fuel → waitK8sJobCompletion script jobName fuel = (some r, tr)) ∧
      tr.count .statusFetch ≤ 121 := by
  have h121 : (script 121).elapsed > maxWaitTime := by
    have := elapsed_lower_bound script h0 hclk 121
    have h2 : maxWaitTime < (121 : Int) * pollingInterval := by decide
    push_cast at this
    exact lt_of_lt_of_le h2 this
  have hex : ∃ n, (pollIteration jobName (script n)).1 ≠ .next :=
    ⟨121, by rw [pollIteration_timedOut jobName _ h121]; simp⟩
  classical
  let k := Nat.find hex
  have hk : (pollIteration jobName (script k)).1 ≠ .next := Nat.find_spec hex
  have hmin : ∀ i, i < k → (pollIteration jobName (script i)).1 = .next := by
    intro i hi
    by_contra hc
    exact Nat.find_min hex hi hc
  have hk121 : k ≤ 121 := Nat.find_min' hex
    (by rw [pollIteration_timedOut jobName _ h121]; simp)
  rcases hp : pollIteration jobName (script k) with ⟨st, evs⟩
  rw [hp] at hk
  cases st with
  | next => exact absurd rfl hk
  | ret r =>
    refine ⟨r, pendingTrace k ++ evs, ?_, ?_⟩
    · intro fuel hF
      exact waitLoop_first_return script jobName k r evs hmin hp fuel (by omega)
    · rw [List.count_append, count_pendingTrace]
      rcases Nat.lt_or_ge k 121 with hlt | hge
      · have := pollIteration_count_statusFetch jobName (script k)
        rw [hp] at this
        simp only at this
        omega
      · have hk' : k = 121 := le_antisymm hk121 hge
        rw [hk'] at hp
        rw [pollIteration_timedOut jobName _ h121] at hp
        have : evs = [] := by
          have := congrArg Prod.snd hp
          simpa using this.symm
        rw [this, hk']
        simp

theorem poll_loop_bounded_witness :
    ∃ (r : Option WaitError) (tr : List PollEvent),
      (∀ fuel, 122 ≤ fuel →
        waitK8sJobCompletion
          (fun i => ⟨i * pollingInterval, .ok ⟨0, 0, 1⟩, .ok (false, false), ""⟩)
          "hb-acme" fuel = (some r, tr)) ∧
      tr.count .statusFetch ≤ 121 :=
  poll_loop_bounded (fun i => ⟨i * pollingInterval, .ok ⟨0, 0, 1⟩, .ok (false, false), ""⟩)
    "hb-acme" (by decide) (by intro i; simp only; push_cast; linarith)

/-- The bound of 121 status fetches is reached: with the clock advancing by exactly the
poll interval and a job that stays active, the wait makes 121 status fetches and then
times out. -/
theorem poll_loop_bound_attained (fuel : Nat) (hF : 122 ≤ fuel) :
    waitK8sJobCompletion
        (fun i => ⟨i * pollingInterval, .ok ⟨0, 0, 1⟩, .ok (false, false), ""⟩)
        "hb-acme" fuel = (some (some (.timedOut "hb-acme")), pendingTrace 121) ∧
    (pendingTrace 121).count .statusFetch = 121 := by
  refine ⟨?_, count_pendingTrace 121⟩
  have hP : ∀ i, i < 121 →
      (pollIteration "hb-acme"
        ((fun i : Nat => (⟨i * pollingInterval, .ok ⟨0, 0, 1⟩, .ok (false, false), ""⟩ :
          PollInput)) i)).1 = .next := by
    intro i hi
    have hle : ((i : Int) * pollingInterval) ≤ maxWaitTime := by
      have h1 : (i : Int) ≤ 120 := by exact_mod_cast Nat.lt_succ_iff.mp hi
      have h2 : maxWaitTime = 120 * pollingInterval := by decide
      have h3 : (0 : Int) ≤ pollingInterval := by decide
      rw [h2]
      exact mul_le_mul_of_nonneg_right h1 h3
    rw [pollIteration_fst_ok "hb-acme" _ ⟨0, 0, 1⟩ hle rfl]
    simp [condSuccess, condFailure]
  have hR := pollIteration_timedOut "hb-acme"
    (⟨(121 : Nat) * pollingInterval, .ok ⟨0, 0, 1⟩, .ok (false, false), ""⟩ : PollInput)
    (by decide)
  have := waitLoop_first_return
    (fun i => ⟨i * pollingInterval, .ok ⟨0, 0, 1⟩, .ok (false, false), ""⟩)
    "hb-acme" 121 _ _ hP hR fuel (by omega)
  simpa using this

/-! ## The entry point -/

theorem wrapInt_succ (c : Int) (h1 : 1 ≤ c) (h2 : c + 1 < 9223372036854775808) :
    wrapInt (c + 1) = c + 1 := by
  unfold wrapInt
  omega

theorem processRecord_ret_err (env : Env) (fuel i : Nat) (msg : List Char) (r : Reply)
    (h : (processRecord env fuel i msg).1 = .ret r) : r.err ≠ none := by
  unfold processRecord at h
  split at h
  · simp only [RecordStep.ret.injEq] at h; subst h; simp
  · split at h
    · simp only [RecordStep.ret.injEq] at h; subst h; simp
    · split at h
      · simp only [RecordStep.ret.injEq] at h; subst h; simp
      · simp only at h
        split at h
        · exact absurd h (by simp)
        · simp only [RecordStep.ret.injEq] at h; subst h; simp
        · exact absurd h (by simp)

theorem processRecord_done (env : Env) (fuel i : Nat) (msg : List Char)
    (h : (processRecord env fuel i msg).1 = .done) :
    ∃ d yaml, env.decodeMessage msg = .ok d ∧ env.generateK8sJob d = .ok yaml ∧
      env.applyK8s i yaml = none ∧
      (waitK8sJobCompletion (env.pollScript i) ("hb-" ++ d.SubDomain) fuel).1 = some none ∧
      (processRecord env fuel i msg).2 =
        [.render i d, .apply i yaml, .wait i ("hb-" ++ d.SubDomain)] := by
  unfold processRecord at h ⊢
  split at h
  · exact absurd h (by simp)
  · rename_i d hd
    split at h
    · exact absurd h (by simp)
    · rename_i yaml hy
      split at h
      · exact absurd h (by simp)
      · rename_i ha
        simp only at h
        split at h
        · exact absurd h (by simp)
        · exact absurd h (by simp)
        · rename_i hw
          refine ⟨d, yaml, hd, hy, ha, hw, ?_⟩
          simp only [hd, hy, ha, hw]

theorem recordLoop_ret (env : Env) (fuel : Nat) (r : Reply) (evs : List TriggerEvent) :
    ∀ (rest : List (List Char)) (i : Nat) (c : Int) (tr : List TriggerEvent) (k : Nat),
      1 ≤ c → c + rest.length < 9223372036854775808 → k < rest.length →
      (∀ j, j < k → (processRecord env fuel (i + j) (rest.getD j [])).1 = .done) →
      processRecord env fuel (i + k) (rest.getD k []) = (.ret r, evs) →
      recordLoop env fuel rest i c tr =
        (some r, tr ++ (batchEvents env fuel (rest.take k) i ++ evs)) := by
  intro rest
  induction rest with
  | nil => intro i c tr k _ _ hk; exact absurd hk (Nat.not_lt_zero _)
  | cons msg rest ih =>
    intro i c tr k hc hlen hk hdone hret
    cases k with
    | zero =>
      simp only [Nat.add_zero, List.getD_cons_zero] at hret
      simp [recordLoop, hret, batchEvents]
    | succ k =>
      have h0 := hdone 0 (Nat.succ_pos k)
      simp only [Nat.add_zero, List.getD_cons_zero] at h0
      have hlen2 : c + 1 + (rest.length : Int) < 9223372036854775808 := by
        simp only [List.length_cons] at hlen
        push_cast at hlen
        omega
      have hw : wrapInt (c + 1) = c + 1 := wrapInt_succ c hc (by omega)
      rcases hp : processRecord env fuel i msg with ⟨st, evs0⟩
      rw [hp] at h0
      simp only at h0
      subst h0
      rw [recordLoop, hp]
      simp only [hw]
      rw [if_neg (by omega)]
      rw [ih (i + 1) (c + 1) (tr ++ evs0) k (by omega) hlen2
        (by simpa using hk)
        (by
          intro j hj
          have := hdone (j + 1) (by omega)
          simpa [Nat.add_assoc, Nat.add_comm 1 j] using this)
        (by simpa [Nat.add_assoc, Nat.add_comm 1 k] using hret)]
      simp [batchEvents, doneEvents, hp, List.append_assoc]

theorem recordLoop_ok (env : Env) (fuel : Nat) :
    ∀ (rest : List (List Char)) (i : Nat) (c : Int) (tr tr2 : List TriggerEvent),
      1 ≤ c → c + rest.length < 9223372036854775808 →
      recordLoop env fuel rest i c tr = (some ⟨some "ok", none⟩, tr2) →
      (∀ k, k < rest.length → (processRecord env fuel (i + k) (rest.getD k [])).1 = .done) ∧
      tr2 = tr ++ batchEvents env fuel rest i := by
  intro rest
  induction rest with
  | nil =>
    intro i c tr tr2 _ _ h
    simp only [recordLoop, Prod.mk.injEq, true_and] at h
    exact ⟨fun k hk => absurd hk (Nat.not_lt_zero _), by simp [batchEvents, h]⟩
  | cons msg rest ih =>
    intro i c tr tr2 hc hlen h
    have hlen2 : c + 1 + (rest.length : Int) < 9223372036854775808 := by
      simp only [List.length_cons] at hlen
      push_cast at hlen
      omega
    have hw : wrapInt (c + 1) = c + 1 := wrapInt_succ c hc (by omega)
    rcases hp : processRecord env fuel i msg with ⟨st, evs0⟩
    rw [recordLoop, hp] at h
    cases st with
    | ret r =>
      simp only [Prod.mk.injEq, Option.some.injEq] at h
      have := processRecord_ret_err env fuel i msg r (by rw [hp])
      rw [h.1] at this
      exact absurd rfl this
    | stuck => simp at h
    | done =>
      simp only [hw] at h
      rw [if_neg (by omega)] at h
      obtain ⟨h1, h2⟩ := ih (i + 1) (c + 1) (tr ++ evs0) tr2 (by omega) hlen2 h
      refine ⟨?_, ?_⟩
      · intro k hk
        cases k with
        | zero => simp [hp]
        | succ k =>
          have := h1 k (by simpa using hk)
          simpa [Nat.add_assoc, Nat.add_comm 1 k] using this
      · simp [h2, batchEvents, doneEvents, hp, List.append_assoc]

/-- C7, the code at a batch of two records for which every step succeeds: both records are
rendered, submitted and polled, so two workloads are submitted, not one. -/
theorem smnTrigger_two_records_both_submitted :
    SmnTrigger (happyEnv ["acme".toList, "beta".toList]) 1 [] =
      (some ⟨some "ok", none⟩,
        [.render 0 ⟨"acme", "twentytwentyfour", "a@b.com"⟩, .apply 0 "acme".toList,
          .wait 0 "hb-acme",
          .render 1 ⟨"beta", "twentytwentyfour", "a@b.com"⟩, .apply 1 "beta".toList,
          .wait 1 "hb-beta"]) := by
  rfl

/-- C8. `SmnTrigger` fails at the first failing step and reports no partial success. For a
batch of fewer than 2^63 - 1 records (no Go slice of records is longer): when the records before position `k` are processed to the
end and the body returns at record `k`, the trigger returns that reply and makes no call
after it; a failed render returns its error after the render alone, a failed submission
returns its error after render and apply without a poll, a failed poll returns its error;
and the reply is `"ok"` with a nil error only if every record of the batch was rendered,
submitted and its job seen to succeed. -/
theorem trigger_fails_at_first_failure (env : Env) (fuel : Nat) (payload : List Char)
    (records : List (List Char)) (hD : env.decodeEvent payload = .ok records)
    (hL : (records.length : Int) < 9223372036854775807) :
    (∀ (k : Nat) (r : Reply) (evs : List TriggerEvent), k < records.length →
      (∀ j, j < k → (processRecord env fuel j (records.getD j [])).1 = .done) →
      processRecord env fuel k (records.getD k []) = (.ret r, evs) →
      SmnTrigger env fuel payload =
        (some r, batchEvents env fuel (records.take k) 0 ++ evs)) ∧
    (∀ (i : Nat) (msg : List Char) (d : HostingDetail) (e : String),
      env.decodeMessage msg = .ok d → env.generateK8sJob d = .error e →
      processRecord env fuel i msg = (.ret ⟨none, some (.render e)⟩, [.render i d])) ∧
    (∀ (i : Nat) (msg : List Char) (d : HostingDetail) (yaml : List Char) (e : String),
      env.decodeMessage msg = .ok d → env.generateK8sJob d = .ok yaml →
      env.applyK8s i yaml = some e →
      processRecord env fuel i msg =
        (.ret ⟨none, some (.apply e)⟩, [.render i d, .apply i yaml])) ∧
    (∀ (i : Nat) (msg : List Char) (d : HostingDetail) (yaml : List Char) (e : WaitError),
      env.decodeMessage msg = .ok d → env.generateK8sJob d = .ok yaml →
      env.applyK8s i yaml = none →
      (waitK8sJobCompletion (env.pollScript i) ("hb-" ++ d.SubDomain) fuel).1 =
        some (some e) →
      processRecord env fuel i msg =
        (.ret ⟨none, some (.wait e)⟩,
          [.render i d, .apply i yaml, .wait i ("hb-" ++ d.SubDomain)])) ∧
    (∀ tr : List TriggerEvent,
      SmnTrigger env fuel payload = (some ⟨some "ok", none⟩, tr) →
      ∀ k, k < records.length →
        ∃ d yaml, env.decodeMessage (records.getD k []) = .ok d ∧
          env.generateK8sJob d = .ok yaml ∧ env.applyK8s k yaml = none ∧
          (waitK8sJobCompletion (env.pollScript k) ("hb-" ++ d.SubDomain) fuel).1 =
            some none) := by
  refine ⟨?_, ?_, ?_, ?_, ?_⟩
  · intro k r evs hk hdone hret
    unfold SmnTrigger
    rw [hD]
    simp only
    rw [recordLoop_ret env fuel r evs records 0 1 [] k (le_refl _) (by omega) hk
      (by simpa using hdone) (by simpa using hret)]
    simp
  · intro i msg d e h1 h2
    simp [processRecord, h1, h2]
  · intro i msg d yaml e h1 h2 h3
    simp [processRecord, h1, h2, h3]
  · intro i msg d yaml e h1 h2 h3 h4
    simp [processRecord, h1, h2, h3, h4]
  · intro tr h k hk
    unfold SmnTrigger at h
    rw [hD] at h
    simp only at h
    have := (recordLoop_ok env fuel records 0 1 [] tr (le_refl _) (by omega) h).1 k hk
    rw [Nat.zero_add] at this
    obtain ⟨d, yaml, h1, h2, h3, h4, _⟩ := processRecord_done env fuel k _ this
    exact ⟨d, yaml, h1, h2, h3, h4⟩

theorem trigger_fails_at_first_failure_witness :
    SmnTrigger (rejectingEnv ["acme".toList, "beta".toList]) 1 [] =
      (some ⟨none, some (.apply "exit status 1")⟩,
        [.render 0 ⟨"acme", "twentytwentyfour", "a@b.com"⟩, .apply 0 "acme".toList]) :=
  (trigger_fails_at_first_failure (rejectingEnv ["acme".toList, "beta".toList]) 1 []
    ["acme".toList, "beta".toList] rfl (by decide)).1 0
    ⟨none, some (.apply "exit status 1")⟩
    [.render 0 ⟨"acme", "twentytwentyfour", "a@b.com"⟩, .apply 0 "acme".toList]
    (by decide) (fun _ h => absurd h (Nat.not_lt_zero _)) rfl

/-! ## Splitting and trimming -/

theorem Split_ne_nil (sep : Char) (s : List Char) : Split sep s ≠ [] := by
  cases s with
  | nil => simp [Split]
  | cons c cs =>
    unfold Split
    split_ifs
    · simp
    · split <;> simp

theorem Split_cons_sep (sep : Char) (cs : List Char) :
    Split sep (sep :: cs) = [] :: Split sep cs := by
  rw [Split]; simp

theorem Split_cons_ne (sep c : Char) (cs hd : List Char) (tl : List (List Char))
    (hc : c ≠ sep) (h : Split sep cs = hd :: tl) :
    Split sep (c :: cs) = (c :: hd) :: tl := by
  rw [Split, if_neg hc, h]

theorem Split_append (sep : Char) :
    ∀ (a b : List Char) (ia : List (List Char)) (la hb : List Char) (tb : List (List Char)),
      Split sep a = ia ++ [la] → Split sep b = hb :: tb →
      Split sep (a ++ b) = ia ++ (la ++ hb) :: tb := by
  intro a
  induction a with
  | nil =>
    intro b ia la hb tb ha hb'
    have : ia = [] ∧ la = [] := by
      cases ia with
      | nil => simpa [Split] using ha.symm
      | cons x xs =>
        simp only [Split, List.cons_append, List.cons.injEq] at ha
        exact absurd ha.2.symm (by simp)
    obtain ⟨rfl, rfl⟩ := this
    simpa using hb'
  | cons c a ih =>
    intro b ia la hb tb ha hb'
    by_cases hc : c = sep
    · subst hc
      rw [Split_cons_sep] at ha
      rw [List.cons_append, Split_cons_sep]
      cases ia with
      | nil =>
        simp only [List.nil_append, List.cons.injEq] at ha
        exact absurd ha.2 (Split_ne_nil _ _)
      | cons x xs =>
        simp only [List.cons_append, List.cons.injEq] at ha
        obtain ⟨rfl, ha2⟩ := ha
        rw [ih b xs la hb tb ha2 hb']
        rfl
    · obtain ⟨h', t', hs⟩ : ∃ h' t', Split sep a = h' :: t' := by
        cases hsp : Split sep a with
        | nil => exact absurd hsp (Split_ne_nil _ _)
        | cons h' t' => exact ⟨h', t', rfl⟩
      rw [Split_cons_ne sep c a h' t' hc hs] at ha
      cases ia with
      | nil =>
        simp only [List.nil_append, List.cons.injEq] at ha
        obtain ⟨rfl, rfl⟩ := ha
        have := ih b [] h' hb tb (by simpa using hs) hb'
        rw [List.cons_append, Split_cons_ne sep c (a ++ b) (h' ++ hb) tb hc (by simpa using this)]
        rfl
      | cons x xs =>
        simp only [List.cons_append, List.cons.injEq] at ha
        obtain ⟨rfl, rfl⟩ := ha
        have := ih b (h' :: xs) la hb tb (by simpa using hs) hb'
        rw [List.cons_append, Split_cons_ne sep c (a ++ b) h' (xs ++ (la ++ hb) :: tb) hc
          (by simpa using this)]
        rfl

theorem mem_of_mem_Split (sep : Char) :
    ∀ (s l : List Char), l ∈ Split sep s → ∀ c ∈ l, c ∈ s ∧ c ≠ sep := by
  intro s
  induction s with
  | nil =>
    intro l hl c hc
    simp only [Split, List.mem_singleton] at hl
    subst hl
    exact absurd hc (List.not_mem_nil c)
  | cons x s ih =>
    intro l hl c hc
    by_cases hx : x = sep
    · subst hx
      rw [Split_cons_sep] at hl
      rcases List.mem_cons.mp hl with h | h
      · subst h; exact absurd hc (List.not_mem_nil c)
      · have := ih l h c hc
        exact ⟨List.mem_cons_of_mem _ this.1, this.2⟩
    · obtain ⟨h', t', hs⟩ : ∃ h' t', Split sep s = h' :: t' := by
        cases hsp : Split sep s with
        | nil => exact absurd hsp (Split_ne_nil _ _)
        | cons h' t' => exact ⟨h', t', rfl⟩
      rw [Split_cons_ne sep x s h' t' hx hs] at hl
      rcases List.mem_cons.mp hl with h | h
      · subst h
        rcases List.mem_cons.mp hc with h2 | h2
        · subst h2; exact ⟨List.mem_cons_self _ _, hx⟩
        · have := ih h' (by rw [hs]; exact List.mem_cons_self _ _) c h2
          exact ⟨List.mem_cons_of_mem _ this.1, this.2⟩
      · have := ih l (by rw [hs]; exact List.mem_cons_of_mem _ h) c hc
        exact ⟨List.mem_cons_of_mem _ this.1, this.2⟩

theorem TrimSpace_of_spaces (w : List Char) (hw : ∀ c ∈ w, isSpace c = true) :
    TrimSpace w = [] := by
  unfold TrimSpace
  rw [List.dropWhile_eq_nil_iff.mpr hw]
  rfl

theorem TrimSpace_spaces_append (w l : List Char) (hw : ∀ c ∈ w, isSpace c = true) :
    TrimSpace (w ++ l) = TrimSpace l := by
  unfold TrimSpace
  rw [List.dropWhile_append_of_pos hw]

theorem TrimSpace_append_spaces (l w : List Char) (hw : ∀ c ∈ w, isSpace c = true) :
    TrimSpace (l ++ w) = TrimSpace l := by
  induction l with
  | nil => rw [List.nil_append, TrimSpace_of_spaces w hw]; rfl
  | cons c l ih =>
    by_cases hc : isSpace c = true
    · have h1 : TrimSpace (c :: l ++ w) = TrimSpace (l ++ w) :=
        TrimSpace_spaces_append [c] (l ++ w) (by simpa using hc)
      have h2 : TrimSpace (c :: l) = TrimSpace l :=
        TrimSpace_spaces_append [c] l (by simpa using hc)
      rw [h1, h2, ih]
    · unfold TrimSpace
      rw [List.cons_append, List.dropWhile_cons_of_neg hc, List.dropWhile_cons_of_neg hc]
      rw [← List.cons_append, List.reverse_append]
      rw [List.dropWhile_append_of_pos (by simpa using hw)]

theorem TrimSpace_decompose (s : List Char) :
    ∃ w1 w2 : List Char, (∀ c ∈ w1, isSpace c = true) ∧ (∀ c ∈ w2, isSpace c = true) ∧
      s = w1 ++ (TrimSpace s ++ w2) := by
  refine ⟨s.takeWhile isSpace, ((s.dropWhile isSpace).reverse.takeWhile isSpace).reverse,
    fun c hc => List.mem_takeWhile_imp hc, ?_, ?_⟩
  · intro c hc
    exact List.mem_takeWhile_imp (List.mem_reverse.mp hc)
  · unfold TrimSpace
    rw [← List.reverse_append, List.takeWhile_append_dropWhile, List.reverse_reverse,
      List.takeWhile_append_dropWhile]

/-! ## The line search of `getJobStatus` -/

theorem isDataLine_nil : isDataLine [] = false := by decide

theorem isDataLine_ne_nil (l : List Char) (h : isDataLine l = true) : l ≠ [] := by
  intro hl
  rw [hl, isDataLine_nil] at h
  exact Bool.false_ne_true h

theorem dataLines_append (xs ys : List (List Char)) :
    dataLines (xs ++ ys) = dataLines xs ++ dataLines ys := by
  simp [dataLines]

theorem dataLines_cons (x : List Char) (xs : List (List Char)) :
    dataLines (x :: xs) =
      (if isDataLine (TrimSpace x) = true then [TrimSpace x] else []) ++ dataLines xs := by
  simp only [dataLines, List.map_cons, List.filter_cons]
  split_ifs <;> rfl

theorem dataLines_of_spaces (xs : List (List Char))
    (h : ∀ l ∈ xs, ∀ c ∈ l, isSpace c = true) : dataLines xs = [] := by
  induction xs with
  | nil => rfl
  | cons x xs ih =>
    rw [dataLines_cons, ih (fun l hl => h l (List.mem_cons_of_mem _ hl)),
      TrimSpace_of_spaces x (h x (List.mem_cons_self _ _)), isDataLine_nil]
    rfl

theorem mem_dataLines_ne_nil (xs : List (List Char)) (l : List Char)
    (h : l ∈ dataLines xs) : l ≠ [] := by
  unfold dataLines at h
  exact isDataLine_ne_nil l (List.mem_filter.mp h).2

theorem exists_concat_of_ne_nil {α : Type} (l : List α) (h : l ≠ []) :
    ∃ i x, l = i ++ [x] :=
  ⟨l.dropLast, l.getLast h, (List.dropLast_append_getLast h).symm⟩

theorem exists_cons_of_ne_nil_list {α : Type} (l : List α) (h : l ≠ []) :
    ∃ x t, l = x :: t := by
  cases l with
  | nil => exact absurd rfl h
  | cons x t => exact ⟨x, t, rfl⟩

theorem dataLines_Split_spaces_append (w x : List Char) (hw : ∀ c ∈ w, isSpace c = true) :
    dataLines (Split '\n' (w ++ x)) = dataLines (Split '\n' x) := by
  obtain ⟨iw, lw, hsw⟩ := exists_concat_of_ne_nil _ (Split_ne_nil '\n' w)
  obtain ⟨hx, tx, hsx⟩ := exists_cons_of_ne_nil_list _ (Split_ne_nil '\n' x)
  have hmem : ∀ l ∈ Split '\n' w, ∀ c ∈ l, isSpace c = true :=
    fun l hl c hc => hw c (mem_of_mem_Split '\n' w l hl c hc).1
  rw [Split_append '\n' w x iw lw hx tx hsw hsx, hsx, dataLines_append, dataLines_cons,
    dataLines_cons]
  rw [dataLines_of_spaces iw (fun l hl => hmem l (by rw [hsw]; simp [hl]))]
  rw [TrimSpace_spaces_append lw hx (hmem lw (by rw [hsw]; simp))]
  rfl

theorem dataLines_Split_append_spaces (x w : List Char) (hw : ∀ c ∈ w, isSpace c = true) :
    dataLines (Split '\n' (x ++ w)) = dataLines (Split '\n' x) := by
  obtain ⟨ix, lx, hsx⟩ := exists_concat_of_ne_nil _ (Split_ne_nil '\n' x)
  obtain ⟨hw', tw, hsw⟩ := exists_cons_of_ne_nil_list _ (Split_ne_nil '\n' w)
  have hmem : ∀ l ∈ Split '\n' w, ∀ c ∈ l, isSpace c = true :=
    fun l hl c hc => hw c (mem_of_mem_Split '\n' w l hl c hc).1
  rw [Split_append '\n' x w ix lx hw' tw hsx hsw, hsx, dataLines_append, dataLines_append,
    dataLines_cons, dataLines_cons]
  rw [dataLines_of_spaces tw (fun l hl => hmem l (by rw [hsw]; simp [hl]))]
  rw [TrimSpace_append_spaces lx hw' (hmem hw' (by rw [hsw]; simp))]
  rfl

/-- Trimming the whole output does not change which trimmed lines pass the test. -/
theorem dataLines_Split_TrimSpace (s : List Char) :
    dataLines (Split '\n' (TrimSpace s)) = dataLines (Split '\n' s) := by
  obtain ⟨w1, w2, h1, h2, hs⟩ := TrimSpace_decompose s
  conv_rhs => rw [hs]
  rw [dataLines_Split_spaces_append w1 _ h1, dataLines_Split_append_spaces _ w2 h2]

theorem findDataLine_eq (lines : List (List Char)) :
    ∀ n, n ≤ lines.length →
      findDataLine lines n = ((dataLines (lines.take n)).getLast?).getD [] := by
  intro n
  induction n with
  | zero => intro _; rfl
  | succ n ih =>
    intro hn
    have hlt : n < lines.length := hn
    have hget : lines.getD n [] = lines[n] := List.getD_eq_getElem lines [] hlt
    rw [findDataLine, List.take_succ, dataLines_append, List.getElem?_eq_getElem hlt]
    simp only [Option.toList, hget]
    rw [dataLines_cons]
    by_cases hd : isDataLine (TrimSpace lines[n]) = true
    · simp [hd, dataLines]
    · simp only [hd]
      rw [ih (Nat.le_of_lt hlt)]
      simp [dataLines]

theorem findDataLine_full (lines : List (List Char)) :
    findDataLine lines lines.length = ((dataLines lines).getLast?).getD [] := by
  rw [findDataLine_eq lines lines.length (le_refl _), List.take_length]

theorem dataLineOf_of_getLast (out L : List Char)
    (h : (dataLines (Split '\n' out)).getLast? = some L) : dataLineOf out = L := by
  have hL : L ≠ [] :=
    mem_dataLines_ne_nil _ L (List.mem_of_getLast?_eq_some h)
  unfold dataLineOf
  simp only
  rw [findDataLine_full, dataLines_Split_TrimSpace, h]
  simp [hL]

theorem dataLineOf_of_nil (out : List Char) (h : dataLines (Split '\n' out) = []) :
    dataLineOf out = TrimSpace out := by
  unfold dataLineOf
  simp only
  rw [findDataLine_full, dataLines_Split_TrimSpace, h]
  simp

theorem findDataLine_at (lines : List (List Char)) (i : Nat)
    (hi : isDataLine (TrimSpace (lines.getD i [])) = true) :
    ∀ n, i < n →
      (∀ j, i < j → j < n → isDataLine (TrimSpace (lines.getD j [])) = false) →
      findDataLine lines n = TrimSpace (lines.getD i []) := by
  intro n
  induction n with
  | zero => intro h; exact absurd h (Nat.not_lt_zero _)
  | succ n ih =>
    intro hin hlater
    rw [findDataLine]
    rcases Nat.lt_succ_iff_lt_or_eq.mp hin with h | h
    · have := hlater n h (Nat.lt_succ_self n)
      simp only [this]
      exact ih h (fun j h1 h2 => hlater j h1 (Nat.lt_succ_of_lt h2))
    · subst h
      simp only [hi, if_true]

theorem findDataLine_eq_nil_iff (lines : List (List Char)) :
    ∀ n, findDataLine lines n = [] ↔
      ∀ j, j < n → isDataLine (TrimSpace (lines.getD j [])) = false := by
  intro n
  induction n with
  | zero => simp [findDataLine]
  | succ n ih =>
    rw [findDataLine]
    by_cases hd : isDataLine (TrimSpace (lines.getD n [])) = true
    · simp only [hd, if_true]
      constructor
      · intro h; exact absurd h (isDataLine_ne_nil _ hd)
      · intro h
        have := h n (Nat.lt_succ_self n)
        rw [hd] at this
        exact absurd this (by simp)
    · simp only [hd]
      rw [if_neg (by simp), ih]
      constructor
      · intro h j hj
        rcases Nat.lt_succ_iff_lt_or_eq.mp hj with h1 | h1
        · exact h j h1
        · subst h1; simpa using hd
      · intro h j hj
        exact h j (Nat.lt_succ_of_lt hj)

/-! ## Removing noise lines -/

theorem Split_of_not_mem (sep : Char) (l : List Char) (h : sep ∉ l) :
    Split sep l = [l] := by
  induction l with
  | nil => rfl
  | cons c l ih =>
    have hc : c ≠ sep := fun hc => h (by rw [hc]; exact List.mem_cons_self _ _)
    exact Split_cons_ne sep c l l [] hc (ih (fun hm => h (List.mem_cons_of_mem _ hm)))

theorem Split_Join (sep : Char) :
    ∀ ls : List (List Char), ls ≠ [] → (∀ l ∈ ls, sep ∉ l) →
      Split sep (Join sep ls) = ls := by
  intro ls
  induction ls with
  | nil => intro h; exact absurd rfl h
  | cons l ls ih =>
    intro _ hmem
    cases ls with
    | nil => exact Split_of_not_mem sep l (hmem l (List.mem_cons_self _ _))
    | cons l2 ls =>
      have ih2 := ih (by simp) (fun x hx => hmem x (List.mem_cons_of_mem _ hx))
      rw [show Join sep (l :: l2 :: ls) = l ++ sep :: Join sep (l2 :: ls) from rfl]
      rw [Split_append sep l (sep :: Join sep (l2 :: ls)) [] l [] (l2 :: ls)
        (Split_of_not_mem sep l (hmem l (List.mem_cons_self _ _)))
        (by rw [Split_cons_sep, ih2])]
      simp

theorem dataLines_filter (keep : List Char → Bool) (xs : List (List Char))
    (hk : ∀ l, isDataLine (TrimSpace l) = true → keep l = true) :
    dataLines (xs.filter keep) = dataLines xs := by
  induction xs with
  | nil => rfl
  | cons x xs ih =>
    by_cases hx : keep x = true
    · rw [List.filter_cons_of_pos hx, dataLines_cons, dataLines_cons, ih]
    · rw [List.filter_cons_of_neg hx, dataLines_cons, ih]
      have : ¬ isDataLine (TrimSpace x) = true := fun h => hx (hk x h)
      simp [this]

theorem dataLineOf_Join_filter (keep : List Char → Bool) (out : List Char)
    (hk : ∀ l, isDataLine (TrimSpace l) = true → keep l = true)
    (hne : dataLines (Split '\n' out) ≠ []) :
    dataLineOf (Join '\n' ((Split '\n' out).filter keep)) = dataLineOf out := by
  have hF : dataLines ((Split '\n' out).filter keep) = dataLines (Split '\n' out) :=
    dataLines_filter keep _ hk
  have hFne : (Split '\n' out).filter keep ≠ [] := by
    intro h
    rw [h] at hF
    exact hne hF.symm
  have hS : Split '\n' (Join '\n' ((Split '\n' out).filter keep)) =
      (Split '\n' out).filter keep :=
    Split_Join '\n' _ hFne (fun l hl hmem =>
      (mem_of_mem_Split '\n' out l (List.mem_of_mem_filter hl) '\n' hmem).2 rfl)
  obtain ⟨L, hL⟩ : ∃ L, (dataLines (Split '\n' out)).getLast? = some L := by
    cases h : (dataLines (Split '\n' out)).getLast? with
    | none => exact absurd (List.getLast?_eq_none_iff.mp h) hne
    | some L => exact ⟨L, rfl⟩
  rw [dataLineOf_of_getLast out L hL]
  exact dataLineOf_of_getLast _ L (by rw [hS, hF, hL])

theorem exists_clean_iff (lines : List (List Char)) :
    (∃ l ∈ lines, isDataLine (TrimSpace l) = true) ↔ dataLines lines ≠ [] := by
  unfold dataLines
  rw [Ne, List.filter_eq_nil_iff]
  simp

theorem Contains_iff_occurs (sub : List Char) :
    ∀ s : List Char, Contains s sub = true ↔ sub <:+: s := by
  intro s
  induction s with
  | nil => simp [Contains]
  | cons c cs ih =>
    rw [Contains, Bool.or_eq_true, ih, List.infix_cons_iff, List.isPrefixOf_iff_prefix]

theorem infix_of_infix_spaces_append (c : Char) (m : List Char) (hc : isSpace c = false) :
    ∀ (w x : List Char), (∀ a ∈ w, isSpace a = true) → (c :: m) <:+: (w ++ x) →
      (c :: m) <:+: x := by
  intro w
  induction w with
  | nil => intro x _ h; simpa using h
  | cons a w ih =>
    intro x hw h
    rw [List.cons_append, List.infix_cons_iff] at h
    rcases h with h | h
    · rw [List.cons_prefix_cons] at h
      have := hw a (List.mem_cons_self _ _)
      rw [← h.1, hc] at this
      exact absurd this (by simp)
    · exact ih x (fun b hb => hw b (List.mem_cons_of_mem _ hb)) h

theorem memcache_infix_TrimSpace (l : List Char) (h : "memcache".toList <:+: l) :
    "memcache".toList <:+: TrimSpace l := by
  obtain ⟨w1, w2, h1, h2, hs⟩ := TrimSpace_decompose l
  rw [hs] at h
  have hA : "memcache".toList <:+: (TrimSpace l ++ w2) :=
    infix_of_infix_spaces_append 'm' "emcache".toList (by decide) w1 _ h1 h
  have hB : ("memcache".toList).reverse <:+: (w2.reverse ++ (TrimSpace l).reverse) := by
    rw [← List.reverse_append]
    exact List.reverse_infix.mpr hA
  have hC : ("memcache".toList).reverse <:+: (TrimSpace l).reverse :=
    infix_of_infix_spaces_append 'e' "hcacmem".toList (by decide) w2.reverse _
      (fun a ha => h2 a (List.mem_reverse.mp ha)) hB
  exact List.reverse_infix.mp hC

theorem TrimSpace_cons_of_not_space (c : Char) (t : List Char) (hc : isSpace c = false) :
    ∃ t2, TrimSpace (c :: t) = c :: t2 := by
  obtain ⟨w1, w2, h1, h2, hs⟩ := TrimSpace_decompose (c :: t)
  cases w1 with
  | nil =>
    cases hT : TrimSpace (c :: t) with
    | nil =>
      rw [hT] at hs
      simp only [List.nil_append] at hs
      have := h2 c (by rw [← hs]; exact List.mem_cons_self _ _)
      rw [hc] at this
      exact absurd this (by simp)
    | cons a t2 =>
      rw [hT] at hs
      simp only [List.nil_append, List.cons_append, List.cons.injEq] at hs
      exact ⟨t2, by rw [hs.1]⟩
  | cons a w1 =>
    simp only [List.cons_append, List.cons.injEq] at hs
    have := h1 a (List.mem_cons_self _ _)
    rw [← hs.1, hc] at this
    exact absurd this (by simp)

theorem not_noise_of_dataLine (l : List Char) (h : isDataLine (TrimSpace l) = true) :
    (!isNoiseLine l) = true := by
  unfold isDataLine at h
  unfold isNoiseLine
  simp only [Bool.and_eq_true, Bool.not_eq_true'] at h
  rw [Bool.not_eq_true', Bool.or_eq_false_iff]
  exact ⟨h.1.2, h.2⟩

theorem not_rawNoise_of_dataLine (l : List Char) (h : isDataLine (TrimSpace l) = true) :
    (!isRawNoiseLine l) = true := by
  unfold isDataLine at h
  simp only [Bool.and_eq_true, Bool.not_eq_true'] at h
  obtain ⟨⟨_, hE⟩, hM⟩ := h
  unfold isRawNoiseLine
  rw [Bool.not_eq_true', Bool.or_eq_false_iff]
  constructor
  · cases l with
    | nil => rfl
    | cons c t =>
      by_cases hc : c = 'E'
      · subst hc
        obtain ⟨t2, ht2⟩ := TrimSpace_cons_of_not_space 'E' t (by decide)
        rw [ht2] at hE
        simp [HasPrefix] at hE
      · show (('E' == c) && List.isPrefixOf [] t) = false
        have hne : ('E' == c) = false := by
          rw [beq_eq_false_iff_ne]
          exact fun h => hc h.symm
        rw [hne]
        rfl
  · by_contra hcon
    have hcon2 : Contains l "memcache".toList = true := by simpa using hcon
    have := memcache_infix_TrimSpace l ((Contains_iff_occurs _ l).mp hcon2)
    rw [← Contains_iff_occurs, hM] at this
    exact absurd this (by simp)

/-- C9. With a successful status command, the snapshot is parsed from the last clean line
(a trimmed line with a comma, not beginning with `E`, not containing `memcache`) whenever
there is one, whether the lines are those of the trimmed output, as the code splits it, or
of the output as it stands; the raw trimmed output is parsed when there is none, and the
search comes back empty only then; the lines `E0101 warn`, `5,0,1` give succeeded 5,
failed 0, active 1. -/
theorem status_from_last_clean_line (jobName : String) (out : List Char) :
    (∀ i, i < (Split '\n' (TrimSpace out)).length →
      isDataLine (TrimSpace ((Split '\n' (TrimSpace out)).getD i [])) = true →
      (∀ j, i < j → j < (Split '\n' (TrimSpace out)).length →
        isDataLine (TrimSpace ((Split '\n' (TrimSpace out)).getD j [])) = false) →
      getJobStatus jobName ⟨out, none⟩ =
        .ok (statusOfLine (TrimSpace ((Split '\n' (TrimSpace out)).getD i [])))) ∧
    ((∀ j, j < (Split '\n' (TrimSpace out)).length →
        isDataLine (TrimSpace ((Split '\n' (TrimSpace out)).getD j [])) = false) →
      getJobStatus jobName ⟨out, none⟩ = .ok (statusOfLine (TrimSpace out))) ∧
    (findDataLine (Split '\n' (TrimSpace out)) (Split '\n' (TrimSpace out)).length = [] ↔
      ∀ j, j < (Split '\n' (TrimSpace out)).length →
        isDataLine (TrimSpace ((Split '\n' (TrimSpace out)).getD j [])) = false) ∧
    (∀ L, (dataLines (Split '\n' out)).getLast? = some L →
      getJobStatus jobName ⟨out, none⟩ = .ok (statusOfLine L)) ∧
    getJobStatus jobName ⟨"E0101 warn\n5,0,1".toList, none⟩ = .ok ⟨5, 0, 1⟩ := by
  refine ⟨?_, ?_, findDataLine_eq_nil_iff _ _, ?_, rfl⟩
  · intro i hi hclean hlater
    have hf := findDataLine_at (Split '\n' (TrimSpace out)) i hclean _ hi hlater
    have hne := isDataLine_ne_nil _ hclean
    simp only [getJobStatus, dataLineOf, hf, hne, if_false]
  · intro hnone
    have hf := (findDataLine_eq_nil_iff (Split '\n' (TrimSpace out)) _).mpr hnone
    simp only [getJobStatus, dataLineOf, hf, if_true]
  · intro L hL
    simp only [getJobStatus, dataLineOf_of_getLast out L hL]

theorem status_from_last_clean_line_witness :
    getJobStatus "hb-acme" ⟨"1,2,3\n5,0,1\nE0101 warn, again".toList, none⟩ =
      .ok (statusOfLine "5,0,1".toList) :=
  (status_from_last_clean_line "hb-acme" "1,2,3\n5,0,1\nE0101 warn, again".toList).1 1
    (by decide) (by decide)
    (by
      intro j h1 h2
      have h3 : j < 3 := h2
      obtain rfl : j = 2 := by omega
      decide)

/-- C10, counterexample. The output whose only line is `E0101 warn,2,3` begins with the error
marker; the code returns failed 2 and active 3 for it, while the same output with that
line removed (the empty output) gives all counts zero. -/
theorem noise_line_contributes_counterexample :
    isNoiseLine "E0101 warn,2,3".toList = true ∧
    isRawNoiseLine "E0101 warn,2,3".toList = true ∧
    removeNoiseLines "E0101 warn,2,3".toList = [] ∧
    removeRawNoiseLines "E0101 warn,2,3".toList = [] ∧
    getJobStatus "hb-acme" ⟨"E0101 warn,2,3".toList, none⟩ = .ok ⟨0, 2, 3⟩ ∧
    getJobStatus "hb-acme" ⟨removeNoiseLines "E0101 warn,2,3".toList, none⟩ = .ok ⟨0, 0, 0⟩ ∧
    getJobStatus "hb-acme" ⟨removeNoiseLines "E0101 warn,2,3".toList, none⟩ ≠
      getJobStatus "hb-acme" ⟨"E0101 warn,2,3".toList, none⟩ := by
  refine ⟨by decide, by decide, by decide, by decide, rfl, rfl, ?_⟩
  intro h
  have h2 : (Except.ok ⟨0, 0, 0⟩ : Except QueryError JobStatus) = .ok ⟨0, 2, 3⟩ := h
  simp at h2

/-- C10, amended. Whenever the output of a successful status command has at least one clean
line, lines that begin with `E` or contain `memcache` do not contribute to the snapshot:
the snapshot equals the one returned for the same output with all such lines removed,
whether the markers are tested on the trimmed line or on the line as it stands. -/
theorem noise_lines_ignored_when_clean_line (jobName : String) (out : List Char)
    (h : ∃ l ∈ Split '\n' (TrimSpace out), isDataLine (TrimSpace l) = true) :
    getJobStatus jobName ⟨removeNoiseLines out, none⟩ = getJobStatus jobName ⟨out, none⟩ ∧
    getJobStatus jobName ⟨removeRawNoiseLines out, none⟩ =
      getJobStatus jobName ⟨out, none⟩ := by
  have hne : dataLines (Split '\n' out) ≠ [] := by
    rw [← dataLines_Split_TrimSpace]
    exact (exists_clean_iff _).mp h
  constructor
  · simp only [getJobStatus, removeNoiseLines]
    rw [dataLineOf_Join_filter (fun l => !isNoiseLine l) out not_noise_of_dataLine hne]
  · simp only [getJobStatus, removeRawNoiseLines]
    rw [dataLineOf_Join_filter (fun l => !isRawNoiseLine l) out not_rawNoise_of_dataLine hne]

theorem noise_lines_ignored_when_clean_line_witness :
    getJobStatus "hb-acme"
        ⟨removeNoiseLines "E0101 warn, again\n5,0,1\nmemcache.go, x".toList, none⟩ =
      getJobStatus "hb-acme" ⟨"E0101 warn, again\n5,0,1\nmemcache.go, x".toList, none⟩ :=
  (noise_lines_ignored_when_clean_line "hb-acme"
    "E0101 warn, again\n5,0,1\nmemcache.go, x".toList
    ⟨"5,0,1".toList, by decide, by decide⟩).1

/-! ## Reading the fields of a status line -/

/-- C11, the code at an output whose status line is followed by a warning sentence with a
comma: the last line of numeric shape is `5,0,1`, but the search settles on the warning
line and every count is reported as zero. -/
theorem warning_line_shadows_status_line :
    isNumericShape "5,0,1".toList = true ∧
    isNumericShape "warning: retrying, please wait".toList = false ∧
    statusOfLine "5,0,1".toList = ⟨5, 0, 1⟩ ∧
    dataLineOf "5,0,1\nwarning: retrying, please wait".toList =
      "warning: retrying, please wait".toList ∧
    getJobStatus "hb-acme" ⟨"5,0,1\nwarning: retrying, please wait".toList, none⟩ =
      .ok ⟨0, 0, 0⟩ := by
  refine ⟨by decide, by decide, by decide, by decide, rfl⟩

theorem digitsValue_eq_ofDigits (ds : List Char) :
    digitsValue ds = Nat.ofDigits 10 (ds.reverse.map digitOf) := by
  rw [Nat.ofDigits_eq_foldr, List.foldr_map, List.foldr_reverse]
  unfold digitsValue digitOf
  congr 1
  funext acc c
  simp [Nat.add_comm]

theorem Atoi_minus (t : List Char) :
    Atoi ('-' :: t) =
      if t.isEmpty || !t.all isDigit then none
      else if -9223372036854775808 ≤ -(digitsValue t : Int) ∧
          -(digitsValue t : Int) ≤ 9223372036854775807 then some (-(digitsValue t : Int))
        else none := by
  rfl

theorem Atoi_plus (t : List Char) :
    Atoi ('+' :: t) =
      if t.isEmpty || !t.all isDigit then none
      else if -9223372036854775808 ≤ (digitsValue t : Int) ∧
          (digitsValue t : Int) ≤ 9223372036854775807 then some (digitsValue t : Int)
        else none := by
  rfl

theorem Atoi_unsigned (s : List Char) (h1 : ∀ t, s ≠ '-' :: t) (h2 : ∀ t, s ≠ '+' :: t) :
    Atoi s =
      if s.isEmpty || !s.all isDigit then none
      else if -9223372036854775808 ≤ (digitsValue s : Int) ∧
          (digitsValue s : Int) ≤ 9223372036854775807 then some (digitsValue s : Int)
        else none := by
  unfold Atoi
  split
  rename_i heq
  split at heq
  · exact absurd rfl (h1 _)
  · exact absurd rfl (h2 _)
  · simp only [Prod.mk.injEq] at heq
    obtain ⟨rfl, rfl⟩ := heq
    simp

theorem digitsValue_cast (ds : List Char) :
    (digitsValue ds : Int) = Nat.ofDigits (10 : Int) (ds.reverse.map digitOf) := by
  rw [digitsValue_eq_ofDigits, Nat.coe_int_ofDigits]
  rfl

theorem inIntRange_iff (v : Int) :
    inIntRange v = true ↔ -9223372036854775808 ≤ v ∧ v ≤ 9223372036854775807 := by
  simp [inIntRange]

theorem Atoi_eq (s : List Char) :
    Atoi s =
      if isDecimalInteger s = true ∧ inIntRange (decimalValue s) = true then
        some (decimalValue s)
      else none := by
  by_cases hm : ∃ t, s = '-' :: t
  · obtain ⟨t, rfl⟩ := hm
    rw [Atoi_minus]
    simp only [isDecimalInteger, decimalValue, unsignedPart, inIntRange_iff,
      ← digitsValue_cast]
    by_cases h1 : (t.isEmpty || !t.all isDigit) = true
    · rw [if_pos h1, if_neg]
      intro h
      simp only [Bool.and_eq_true, Bool.not_eq_true', Bool.or_eq_true] at h h1
      rcases h1 with h1 | h1 <;> simp_all
    · rw [if_neg h1]
      simp only [Bool.or_eq_true, Bool.not_eq_true', not_or, Bool.not_eq_false] at h1
      simp [h1.1, h1.2]
  · by_cases hp : ∃ t, s = '+' :: t
    · obtain ⟨t, rfl⟩ := hp
      rw [Atoi_plus]
      simp only [isDecimalInteger, decimalValue, unsignedPart, inIntRange_iff,
        ← digitsValue_cast]
      by_cases h1 : (t.isEmpty || !t.all isDigit) = true
      · rw [if_pos h1, if_neg]
        intro h
        simp only [Bool.and_eq_true, Bool.not_eq_true', Bool.or_eq_true] at h h1
        rcases h1 with h1 | h1 <;> simp_all
      · rw [if_neg h1]
        simp only [Bool.or_eq_true, Bool.not_eq_true', not_or, Bool.not_eq_false] at h1
        simp [h1.1, h1.2]
    · have h1 : ∀ t, s ≠ '-' :: t := fun t h => hm ⟨t, h⟩
      have h2 : ∀ t, s ≠ '+' :: t := fun t h => hp ⟨t, h⟩
      have hu : unsignedPart s = s := by
        unfold unsignedPart
        split
        · exact absurd rfl (h1 _)
        · exact absurd rfl (h2 _)
        · rfl
      have hd : decimalValue s = (digitsValue s : Int) := by
        unfold decimalValue
        split
        · exact absurd rfl (h1 _)
        · rw [hu, digitsValue_cast]
      rw [Atoi_unsigned s h1 h2, hd]
      simp only [isDecimalInteger, hu, inIntRange_iff]
      by_cases h3 : (s.isEmpty || !s.all isDigit) = true
      · rw [if_pos h3, if_neg]
        intro h
        simp only [Bool.and_eq_true, Bool.not_eq_true', Bool.or_eq_true] at h h3
        rcases h3 with h3 | h3 <;> simp_all
      · rw [if_neg h3]
        simp only [Bool.or_eq_true, Bool.not_eq_true', not_or, Bool.not_eq_false] at h3
        simp [h3.1, h3.2]

theorem getD_pad (values : List (List Char)) (k i : Nat) :
    (values ++ List.replicate k ([] : List Char)).getD i [] = values.getD i [] := by
  rw [List.getD_eq_getElem?_getD, List.getD_eq_getElem?_getD]
  by_cases h : i < values.length
  · rw [List.getElem?_append_left h]
  · rw [List.getElem?_append_right (not_lt.mp h), List.getElem?_eq_none (not_lt.mp h),
      List.getElem?_replicate]
    split_ifs <;> rfl

theorem length_pad (values : List (List Char)) :
    3 ≤ (values ++ List.replicate (3 - values.length) ([] : List Char)).length := by
  rw [List.length_append, List.length_replicate]
  omega

theorem fieldValue_pad (values : List (List Char)) (i : Nat) (hi : i < 3) :
    fieldValue (values ++ List.replicate (3 - values.length) []) i =
      if isDecimalInteger (TrimSpace (values.getD i [])) = true ∧
          inIntRange (decimalValue (TrimSpace (values.getD i []))) = true then
        decimalValue (TrimSpace (values.getD i []))
      else 0 := by
  have hlen : (values ++ List.replicate (3 - values.length) ([] : List Char)).length ≥ i + 1 :=
    le_trans (by omega) (length_pad values)
  unfold fieldValue
  rw [getD_pad]
  by_cases h1 : values.getD i [] = []
  · rw [h1]
    simp [TrimSpace, isDecimalInteger, unsignedPart]
  · by_cases h2 : values.getD i [] = "<none>".toList
    · rw [h2, if_neg (by simp), if_neg (by decide)]
    · rw [if_pos ⟨hlen, h1, h2⟩, Atoi_eq]
      split_ifs <;> rfl

theorem statusOfLine_count (line : List Char) (i : Nat) (hi : i < 3) :
    (statusOfLine line).count i =
      if isDecimalInteger (TrimSpace ((Split ',' line).getD i [])) = true ∧
          inIntRange (decimalValue (TrimSpace ((Split ',' line).getD i []))) = true then
        decimalValue (TrimSpace ((Split ',' line).getD i []))
      else 0 := by
  rw [← fieldValue_pad (Split ',' line) i hi]
  unfold statusOfLine JobStatus.count
  obtain rfl | rfl | rfl : i = 0 ∨ i = 1 ∨ i = 2 := by omega
  all_goals rfl

theorem statusOfLine_eq (line : List Char) :
    statusOfLine line =
      ⟨(statusOfLine line).count 0, (statusOfLine line).count 1, (statusOfLine line).count 2⟩ :=
  rfl

/-- C12, counterexample. The field `9223372036854775808` is a decimal integer, but it does
not fit a 64-bit `int`: `strconv.Atoi` fails and the code reports 0 for it. -/
theorem large_integer_field_counterexample :
    isDecimalInteger (TrimSpace "9223372036854775808".toList) = true ∧
    decimalValue (TrimSpace "9223372036854775808".toList) = 9223372036854775808 ∧
    (Split ',' (dataLineOf "9223372036854775808,0,0".toList))[0]? =
      some "9223372036854775808".toList ∧
    getJobStatus "hb-acme" ⟨"9223372036854775808,0,0".toList, none⟩ = .ok ⟨0, 0, 0⟩ := by
  refine ⟨by decide, by decide, by decide, rfl⟩

/-- C12, amended. With a successful status command `getJobStatus` returns a snapshot and no
error for every output text, and the padded field list always has the three entries the
code indexes. Each of the three counts is 0 when its field is missing, empty, the
placeholder `<none>`, not a decimal integer, or a decimal integer outside the range of a
64-bit `int`; it is the integer the trimmed field denotes when that integer is in the
range; and fields after the third have no influence. -/
theorem status_fields_reported (jobName : String) (out : List Char) :
    getJobStatus jobName ⟨out, none⟩ = .ok (statusOfLine (dataLineOf out)) ∧
    3 ≤ (Split ',' (dataLineOf out) ++
      List.replicate (3 - (Split ',' (dataLineOf out)).length) []).length ∧
    (∀ i, i < 3 →
      ((Split ',' (dataLineOf out))[i]? = none →
        (statusOfLine (dataLineOf out)).count i = 0) ∧
      (∀ f, (Split ',' (dataLineOf out))[i]? = some f →
        ((f = [] ∨ f = "<none>".toList ∨ isDecimalInteger (TrimSpace f) = false) →
          (statusOfLine (dataLineOf out)).count i = 0) ∧
        (isDecimalInteger (TrimSpace f) = true →
          inIntRange (decimalValue (TrimSpace f)) = true →
          (statusOfLine (dataLineOf out)).count i = decimalValue (TrimSpace f)) ∧
        (isDecimalInteger (TrimSpace f) = true →
          inIntRange (decimalValue (TrimSpace f)) = false →
          (statusOfLine (dataLineOf out)).count i = 0))) ∧
    (∀ line2 : List Char,
      (Split ',' line2).take 3 = (Split ',' (dataLineOf out)).take 3 →
      statusOfLine line2 = statusOfLine (dataLineOf out)) := by
  refine ⟨rfl, length_pad _, ?_, ?_⟩
  · intro i hi
    rw [statusOfLine_count _ i hi, List.getD_eq_getElem?_getD]
    refine ⟨?_, ?_⟩
    · intro hnone
      rw [hnone]
      simp [TrimSpace, isDecimalInteger, unsignedPart]
    · intro f hf
      rw [hf]
      simp only [Option.getD_some]
      refine ⟨?_, ?_, ?_⟩
      · rintro (h | h | h)
        · rw [h]; simp [TrimSpace, isDecimalInteger, unsignedPart]
        · rw [h, if_neg (by decide)]
        · rw [h]; simp
      · intro h1 h2
        rw [if_pos ⟨h1, h2⟩]
      · intro h1 h2
        rw [h2]; simp
  · intro line2 h
    have hget : ∀ i, i < 3 →
        (Split ',' line2).getD i [] = (Split ',' (dataLineOf out)).getD i [] := by
      intro i hi
      rw [List.getD_eq_getElem?_getD, List.getD_eq_getElem?_getD,
        ← List.getElem?_take_of_lt hi, h, List.getElem?_take_of_lt hi]
    rw [statusOfLine_eq line2, statusOfLine_eq (dataLineOf out)]
    rw [statusOfLine_count line2 0 (by decide), statusOfLine_count line2 1 (by decide),
      statusOfLine_count line2 2 (by decide), statusOfLine_count _ 0 (by decide),
      statusOfLine_count (dataLineOf out) 1 (by decide),
      statusOfLine_count (dataLineOf out) 2 (by decide),
      hget 0 (by decide), hget 1 (by decide), hget 2 (by decide)]

theorem status_fields_reported_witness :
    (statusOfLine (dataLineOf " 7 ,<none>,-3,99".toList)).count 0 = 7 :=
  ((status_fields_reported "hb-acme" " 7 ,<none>,-3,99".toList).2.2.1 0 (by decide)).2
    "7 ".toList (by decide) |>.2.1 (by decide) (by decide)

/-! ## The condition flags of `isJobComplete` -/

theorem flag_iff (parts : List (List Char)) (i : Nat) :
    (decide (parts.length > i) && (TrimSpace (parts.getD i []) == "True".toList)) = true ↔
      ∃ f, parts[i]? = some f ∧ TrimSpace f = "True".toList := by
  rw [Bool.and_eq_true, decide_eq_true_eq, beq_iff_eq, List.getD_eq_getElem?_getD]
  constructor
  · rintro ⟨hlen, h⟩
    refine ⟨parts[i], List.getElem?_eq_getElem hlen, ?_⟩
    rw [List.getElem?_eq_getElem hlen] at h
    exact h
  · rintro ⟨f, hf, h⟩
    have hlen : i < parts.length := by
      by_contra hc
      rw [List.getElem?_eq_none (not_lt.mp hc)] at hf
      exact Option.noConfusion hf
    exact ⟨hlen, by rw [hf]; exact h⟩

theorem flagsOfLine_take (line line2 : List Char)
    (h : (Split ',' line2).take 2 = (Split ',' line).take 2) :
    flagsOfLine line2 = flagsOfLine line := by
  have hget : ∀ i, i < 2 → (Split ',' line2)[i]? = (Split ',' line)[i]? := by
    intro i hi
    rw [← List.getElem?_take_of_lt hi, h, List.getElem?_take_of_lt hi]
  have hb : ∀ i, i < 2 →
      (decide ((Split ',' line2).length > i) &&
        (TrimSpace ((Split ',' line2).getD i []) == "True".toList)) =
      (decide ((Split ',' line).length > i) &&
        (TrimSpace ((Split ',' line).getD i []) == "True".toList)) := by
    intro i hi
    rw [Bool.eq_iff_iff, flag_iff, flag_iff, hget i hi]
  unfold flagsOfLine
  simp only [hb 0 (by decide), hb 1 (by decide)]

/-- C13, counterexample. The output `True` is a single field, its data line has no comma,
and the code reports the job complete. -/
theorem single_field_true_counterexample :
    conditionsLineOf "True".toList = "True".toList ∧
    ',' ∉ conditionsLineOf "True".toList ∧
    isJobComplete "hb-acme" ⟨"True".toList, none⟩ = .ok (true, false) := by
  refine ⟨by decide, by decide, rfl⟩

/-- C13, amended. With a successful command, the output `True,False` gives complete without
failed, the output `False,True` gives failed without complete, and every output gives a
pair of flags and no error. For an output whose data line has no comma, failed is false
and complete is true exactly when the data line, trimmed, is `True`; when neither of the
first two fields of the data line is `True` after trimming, both flags are false. -/
theorem conditions_parsing (jobName : String) (out : List Char) :
    isJobComplete jobName ⟨"True,False".toList, none⟩ = .ok (true, false) ∧
    isJobComplete jobName ⟨"False,True".toList, none⟩ = .ok (false, true) ∧
    isJobComplete jobName ⟨out, none⟩ = .ok (flagsOfLine (conditionsLineOf out)) ∧
    (',' ∉ conditionsLineOf out →
      (flagsOfLine (conditionsLineOf out)).2 = false ∧
      ((flagsOfLine (conditionsLineOf out)).1 = true ↔
        TrimSpace (conditionsLineOf out) = "True".toList)) ∧
    (TrimSpace ((Split ',' (conditionsLineOf out)).getD 0 []) ≠ "True".toList →
      TrimSpace ((Split ',' (conditionsLineOf out)).getD 1 []) ≠ "True".toList →
      flagsOfLine (conditionsLineOf out) = (false, false)) := by
  refine ⟨rfl, rfl, rfl, ?_, ?_⟩
  · intro hno
    unfold flagsOfLine
    rw [Split_of_not_mem ',' _ hno]
    simp
  · intro h0 h1
    have e0 : (TrimSpace ((Split ',' (conditionsLineOf out)).getD 0 []) == "True".toList) =
        false := beq_eq_false_iff_ne.mpr h0
    have e1 : (TrimSpace ((Split ',' (conditionsLineOf out)).getD 1 []) == "True".toList) =
        false := beq_eq_false_iff_ne.mpr h1
    unfold flagsOfLine
    simp only [e0, e1, Bool.and_false]

theorem conditions_parsing_witness :
    (flagsOfLine (conditionsLineOf "False".toList)).2 = false ∧
    ((flagsOfLine (conditionsLineOf "False".toList)).1 = true ↔
      TrimSpace (conditionsLineOf "False".toList) = "True".toList) :=
  (conditions_parsing "hb-acme" "False".toList).2.2.2.1 (by decide)

/-- C14. With a successful command `isJobComplete` returns a pair of flags: complete is
true exactly when the first comma-separated field of the selected line, trimmed, is the
text `True`, failed is true exactly when a second field exists and, trimmed, is `True`;
fields after the second have no influence, and `true`, `TRUE`, `True1` and the empty
field give false. -/
theorem condition_flags_textual (jobName : String) (out : List Char) :
    ∃ complete failed : Bool,
      isJobComplete jobName ⟨out, none⟩ = .ok (complete, failed) ∧
      (∃ first, (Split ',' (conditionsLineOf out))[0]? = some first ∧
        (complete = true ↔ TrimSpace first = "True".toList)) ∧
      (failed = true ↔
        ∃ second, (Split ',' (conditionsLineOf out))[1]? = some second ∧
          TrimSpace second = "True".toList) ∧
      (∀ line2 : List Char,
        (Split ',' line2).take 2 = (Split ',' (conditionsLineOf out)).take 2 →
        flagsOfLine line2 = (complete, failed)) ∧
      flagsOfLine "true,TRUE".toList = (false, false) ∧
      flagsOfLine "True1,".toList = (false, false) ∧
      flagsOfLine ",".toList = (false, false) ∧
      flagsOfLine " True , True ,False".toList = (true, true) := by
  refine ⟨(flagsOfLine (conditionsLineOf out)).1, (flagsOfLine (conditionsLineOf out)).2,
    rfl, ?_, ?_, ?_, by decide, by decide, by decide, by decide⟩
  · obtain ⟨first, rest, hs⟩ := exists_cons_of_ne_nil_list _
      (Split_ne_nil ',' (conditionsLineOf out))
    refine ⟨first, by rw [hs]; simp, ?_⟩
    show (decide ((Split ',' (conditionsLineOf out)).length > 0) &&
      (TrimSpace ((Split ',' (conditionsLineOf out)).getD 0 []) == "True".toList)) = true ↔ _
    rw [flag_iff, hs]
    simp
  · exact flag_iff (Split ',' (conditionsLineOf out)) 1
  · intro line2 h
    exact flagsOfLine_take (conditionsLineOf out) line2 h

/-! ## The renderer -/

theorem generateK8sJob_fst {T : Type} (appConfig : Config) (eng : TemplateEngine T)
    (fs : DebugFile) (smnMessage : HostingDetail) :
    (generateK8sJob appConfig eng fs smnMessage).1 =
      match eng.parseFS with
      | .error e => .error (.parseTemplate e)
      | .ok tmpl =>
        match eng.execute tmpl (templateData appConfig smnMessage) with
        | .error e => .error (.executeTemplate e)
        | .ok buf => .ok buf := by
  unfold generateK8sJob
  split
  · rfl
  · split
    · rfl
    · split <;> rfl

/-- C15. The pair `generateK8sJob` returns is a function of the request, the template and
the configuration values substituted into it: two calls that agree on these return the
same bytes or the same error, whatever the other configuration fields, the debug flag
and the answers of the file system are; switching the debug flag changes nothing in what
is returned; and when the debug file cannot be created the rendered bytes are still
returned, with no error. -/
theorem render_deterministic {T : Type} (eng : TemplateEngine T) (cfg1 cfg2 : Config)
    (fs1 fs2 : DebugFile) (d : HostingDetail)
    (h : templateData cfg1 d = templateData cfg2 d) :
    (generateK8sJob cfg1 eng fs1 d).1 = (generateK8sJob cfg2 eng fs2 d).1 ∧
    (generateK8sJob { cfg1 with PrintOutFile := true } eng fs1 d).1 =
      (generateK8sJob { cfg1 with PrintOutFile := false } eng fs2 d).1 ∧
    (∀ (tmpl : T) (buf : List Char) (e : String),
      eng.parseFS = .ok tmpl → eng.execute tmpl (templateData cfg1 d) = .ok buf →
      cfg1.PrintOutFile = true → fs1.createErr = some e →
      generateK8sJob cfg1 eng fs1 d =
        (.ok buf,
          [.create "./debug-telegram-job.yaml" (some e),
            .write buf (some "invalid argument"), .close (some "invalid argument")])) ∧
    (cfg1.HostingBuilderImage = cfg2.HostingBuilderImage →
      cfg1.ImagePullPolicy = cfg2.ImagePullPolicy →
      cfg1.K8sNamespace = cfg2.K8sNamespace → cfg1.LxdHost = cfg2.LxdHost →
      cfg1.AnsibleUser = cfg2.AnsibleUser → cfg1.AnsiblePassword = cfg2.AnsiblePassword →
      cfg1.DbRootHost = cfg2.DbRootHost → cfg1.DbRootUser = cfg2.DbRootUser →
      cfg1.DbRootPassword = cfg2.DbRootPassword → cfg1.AccessKey = cfg2.AccessKey →
      cfg1.SecretKey = cfg2.SecretKey → cfg1.TopicUrn = cfg2.TopicUrn →
      templateData cfg1 d = templateData cfg2 d) := by
  refine ⟨?_, ?_, ?_, ?_⟩
  · rw [generateK8sJob_fst, generateK8sJob_fst, h]
  · rw [generateK8sJob_fst, generateK8sJob_fst]
    rfl
  · intro tmpl buf e hp he hflag hc
    unfold generateK8sJob
    simp only [hp, he, hflag, if_true, osCreate, hc, fileWrite, fileClose]
  · intro h1 h2 h3 h4 h5 h6 h7 h8 h9 h10 h11 h12
    unfold templateData
    rw [h1, h2, h3, h4, h5, h6, h7, h8, h9, h10, h11, h12]

theorem render_deterministic_witness :
    (generateK8sJob (sampleConfig true) jobNameEngine ⟨some "permission denied", none, none⟩
      ⟨"acme", "twentytwentyfour", "a@b.com"⟩).1 =
    (generateK8sJob (sampleConfig false) jobNameEngine ⟨none, none, none⟩
      ⟨"acme", "twentytwentyfour", "a@b.com"⟩).1 :=
  (render_deterministic jobNameEngine (sampleConfig true) (sampleConfig false)
    ⟨some "permission denied", none, none⟩ ⟨none, none, none⟩
    ⟨"acme", "twentytwentyfour", "a@b.com"⟩ rfl).1

theorem toNat_ofNat_small (n : Nat) (h : n < 55296) : (Char.ofNat n).toNat = n := by
  have hv : n.isValidChar := Or.inl h
  simp only [Char.ofNat, hv, dif_pos, Char.ofNatAux, Char.toNat]
  rfl

theorem mem_charRange (lo hi c : Char) (hhi : hi.toNat < 55296) :
    c ∈ charRange lo hi ↔ lo.toNat ≤ c.toNat ∧ c.toNat ≤ hi.toNat := by
  unfold charRange
  rw [List.mem_map]
  constructor
  · rintro ⟨i, hi, rfl⟩
    rw [List.mem_range] at hi
    rw [toNat_ofNat_small _ (by omega)]
    omega
  · rintro ⟨h1, h2⟩
    refine ⟨c.toNat - lo.toNat, List.mem_range.mpr (by omega), ?_⟩
    rw [show lo.toNat + (c.toNat - lo.toNat) = c.toNat by omega, Char.ofNat_toNat]

theorem mem_lowerAlnum (c : Char) :
    c ∈ lowerAlnum ↔ (97 ≤ c.toNat ∧ c.toNat ≤ 122) ∨ (48 ≤ c.toNat ∧ c.toNat ≤ 57) := by
  unfold lowerAlnum
  rw [List.mem_append, mem_charRange 'a' 'z' c (by decide),
    mem_charRange '0' '9' c (by decide)]
  rfl

theorem mem_charClass (cs : List Char) (x : List Char) :
    x ∈ (charClass cs).matches' ↔ ∃ c ∈ cs, x = [c] := by
  induction cs with
  | nil =>
    simp only [charClass, List.foldr_nil, RegularExpression.matches'_zero, List.not_mem_nil,
      false_and, exists_false, iff_false]
    exact Language.not_mem_zero x
  | cons a cs ih =>
    have hc : charClass (a :: cs) = RegularExpression.char a + charClass cs := rfl
    rw [hc, RegularExpression.matches'_add, Language.mem_add, RegularExpression.matches'_char,
      ih]
    constructor
    · rintro (h | ⟨c, hc, rfl⟩)
      · exact ⟨a, List.mem_cons_self _ _, h⟩
      · exact ⟨c, List.mem_cons_of_mem _ hc, rfl⟩
    · rintro ⟨c, hc, rfl⟩
      rcases List.mem_cons.mp hc with h | h
      · left; rw [h]; rfl
      · right; exact ⟨c, h, rfl⟩

theorem mem_reUpTo (cs : List Char) (n : Nat) :
    ∀ x : List Char, x ∈ (reUpTo n (charClass cs)).matches' ↔
      x.length ≤ n ∧ ∀ c ∈ x, c ∈ cs := by
  unfold reUpTo
  rw [RegularExpression.matches'_pow]
  induction n with
  | zero =>
    intro x
    rw [pow_zero, Language.mem_one]
    constructor
    · rintro rfl; simp
    · rintro ⟨h, _⟩; exact List.length_eq_zero.mp (Nat.le_zero.mp h)
  | succ n ih =>
    intro x
    rw [pow_succ, Language.mem_mul]
    constructor
    · rintro ⟨a, ha, b, hb, rfl⟩
      obtain ⟨ha1, ha2⟩ := (ih a).mp ha
      rw [RegularExpression.matches'_add, Language.mem_add, mem_charClass,
        RegularExpression.matches'_epsilon, Language.mem_one] at hb
      rcases hb with ⟨c, hc, rfl⟩ | rfl
      · refine ⟨by simp; omega, ?_⟩
        intro d hd
        rcases List.mem_append.mp hd with h | h
        · exact ha2 d h
        · rw [List.mem_singleton.mp h]; exact hc
      · refine ⟨by simp; omega, ?_⟩
        intro d hd
        exact ha2 d (by simpa using hd)
    · rintro ⟨hlen, hall⟩
      by_cases hn : x.length ≤ n
      · refine ⟨x, (ih x).mpr ⟨hn, hall⟩, [], ?_, by simp⟩
        rw [RegularExpression.matches'_add, Language.mem_add,
          RegularExpression.matches'_epsilon, Language.mem_one]
        right; rfl
      · have hne : x ≠ [] := by
          intro h; rw [h] at hn; simp at hn
        obtain ⟨a, c, rfl⟩ := exists_concat_of_ne_nil x hne
        refine ⟨a, (ih a).mpr ⟨by simp at hlen; omega,
          fun d hd => hall d (List.mem_append_left _ hd)⟩, [c], ?_, rfl⟩
        rw [RegularExpression.matches'_add, Language.mem_add, mem_charClass]
        left
        exact ⟨c, hall c (by simp), rfl⟩

theorem validSubdomain_iff (x : List Char) :
    validSubdomain x = true ↔
      1 ≤ x.length ∧ x.length ≤ 63 ∧ (∀ c ∈ x, c ∈ lowerAlnum ∨ c = '-') ∧
        x.head? ≠ some '-' ∧ x.getLast? ≠ some '-' := by
  unfold validSubdomain
  simp only [Bool.and_eq_true, decide_eq_true_eq, List.all_eq_true, Bool.or_eq_true,
    beq_iff_eq, bne_iff_ne, ne_eq, mem_lowerAlnum, isDigit]
  tauto

theorem hyphen_not_lowerAlnum : '-' ∉ lowerAlnum := by decide

theorem subdomainRegex_matches (x : List Char) :
    x ∈ subdomainRegex.matches' ↔
      ∃ c ∈ lowerAlnum, ∃ b, x = c :: b ∧
        (b = [] ∨ ∃ m l, b = m ++ [l] ∧ m.length ≤ 61 ∧
          (∀ d ∈ m, d ∈ lowerAlnum ++ ['-']) ∧ l ∈ lowerAlnum) := by
  unfold subdomainRegex reOptional
  rw [RegularExpression.matches'_mul, Language.mem_mul]
  constructor
  · rintro ⟨a, ha, b, hb, rfl⟩
    obtain ⟨c, hc, rfl⟩ := (mem_charClass _ _).mp ha
    refine ⟨c, hc, b, rfl, ?_⟩
    rw [RegularExpression.matches'_add, Language.mem_add, RegularExpression.matches'_epsilon,
      Language.mem_one, RegularExpression.matches'_mul, Language.mem_mul] at hb
    rcases hb with ⟨m, hm, l, hl, rfl⟩ | rfl
    · right
      obtain ⟨l', hl', rfl⟩ := (mem_charClass _ _).mp hl
      obtain ⟨hm1, hm2⟩ := (mem_reUpTo _ 61 m).mp hm
      exact ⟨m, l', rfl, hm1, hm2, hl'⟩
    · left; rfl
  · rintro ⟨c, hc, b, rfl, hb⟩
    refine ⟨[c], (mem_charClass _ _).mpr ⟨c, hc, rfl⟩, b, ?_, rfl⟩
    rw [RegularExpression.matches'_add, Language.mem_add, RegularExpression.matches'_epsilon,
      Language.mem_one, RegularExpression.matches'_mul, Language.mem_mul]
    rcases hb with rfl | ⟨m, l, rfl, hm1, hm2, hl⟩
    · right; rfl
    · left
      exact ⟨m, (mem_reUpTo _ 61 m).mpr ⟨hm1, hm2⟩, [l],
        (mem_charClass _ _).mpr ⟨l, hl, rfl⟩, rfl⟩

/-- The subdomain pattern matches exactly the texts of 1 to 63 lowercase letters, digits
and hyphens that neither start nor end with a hyphen. -/
theorem subdomainRegex_iff_valid (s : String) :
    MatchString subdomainRegex s = true ↔ validSubdomain s.toList = true := by
  unfold MatchString
  rw [RegularExpression.rmatch_iff_matches', subdomainRegex_matches, validSubdomain_iff]
  constructor
  · rintro ⟨c, hc, b, hx, hb⟩
    rw [hx]
    have hcne : c ≠ '-' := fun h => hyphen_not_lowerAlnum (h ▸ hc)
    rcases hb with rfl | ⟨m, l, rfl, hm1, hm2, hl⟩
    · refine ⟨by simp, by simp, ?_, ?_, ?_⟩
      · intro d hd
        rw [List.mem_singleton.mp hd]; exact Or.inl hc
      · simpa using hcne
      · simpa using hcne
    · have hlne : l ≠ '-' := fun h => hyphen_not_lowerAlnum (h ▸ hl)
      refine ⟨by simp, by simp; omega, ?_, ?_, ?_⟩
      · intro d hd
        rcases List.mem_cons.mp hd with h | h
        · rw [h]; exact Or.inl hc
        · rcases List.mem_append.mp h with h2 | h2
          · rcases List.mem_append.mp (hm2 d h2) with h3 | h3
            · exact Or.inl h3
            · exact Or.inr (List.mem_singleton.mp h3)
          · rw [List.mem_singleton.mp h2]; exact Or.inl hl
      · simpa using hcne
      · rw [← List.cons_append, List.getLast?_concat]
        simpa using hlne
  · rintro ⟨h1, h2, hall, hhead, hlast⟩
    obtain ⟨c, b, hx⟩ := exists_cons_of_ne_nil_list s.toList (by
      intro h; rw [h] at h1; simp at h1)
    rw [hx] at h1 h2 hall hhead hlast ⊢
    have hcne : c ≠ '-' := by simpa using hhead
    have hc : c ∈ lowerAlnum := by
      rcases hall c (List.mem_cons_self _ _) with h | h
      · exact h
      · exact absurd h hcne
    refine ⟨c, hc, b, rfl, ?_⟩
    by_cases hb : b = []
    · left; exact hb
    · right
      obtain ⟨m, l, rfl⟩ := exists_concat_of_ne_nil b hb
      rw [← List.cons_append, List.getLast?_concat] at hlast
      have hlne : l ≠ '-' := by simpa using hlast
      have hl : l ∈ lowerAlnum := by
        rcases hall l (by simp) with h | h
        · exact h
        · exact absurd h hlne
      refine ⟨m, l, rfl, by simp at h2; omega, ?_, hl⟩
      intro d hd
      rcases hall d (by simp [hd]) with h | h
      · exact List.mem_append_left _ h
      · exact List.mem_append_right _ (by simp [h])

/-! ## The form handler -/

theorem ite_singleton_eq_nil (c : Prop) [Decidable c] (m : String) :
    (if c then [m] else []) = [] ↔ ¬ c := by
  by_cases h : c <;> simp [h]

theorem contains_themeList (t : String) : themeList.contains t = true ↔ t ∈ themeList :=
  List.elem_iff

theorem formErrors_eq_nil_iff (req : FormRequest) :
    formErrors req = [] ↔
      validSubdomain req.subdomain_name.toList = true ∧ req.wordpress_theme ∈ themeList ∧
        MatchString emailRegex req.email = true := by
  unfold formErrors
  simp only [List.append_eq_nil, ite_singleton_eq_nil, Bool.not_eq_true', Bool.not_eq_false,
    Bool.not_eq_true, contains_themeList, ← subdomainRegex_iff_valid]
  constructor
  · rintro ⟨⟨⟨⟨⟨_, h2⟩, _⟩, h4⟩, _⟩, h6⟩
    exact ⟨h2, h4, h6⟩
  · rintro ⟨h2, h4, h6⟩
    refine ⟨⟨⟨⟨⟨?_, h2⟩, ?_⟩, h4⟩, ?_⟩, h6⟩
    · intro h
      rw [h] at h2
      exact absurd h2 (by decide)
    · intro h
      rw [h] at h4
      exact absurd h4 (by decide)
    · intro h
      rw [h] at h6
      exact absurd h6 (by decide)

theorem submitHandler_invalid (appConfig : WebConfig) (env : WebEnv) (req : FormRequest)
    (hPost : req.Method = "POST") (h : formErrors req ≠ []) :
    submitHandler appConfig env req = ⟨.writeHeader 400 :: renderForm env, []⟩ := by
  have hlen : (formErrors req).length > 0 := List.length_pos.mpr h
  unfold submitHandler
  simp only [hPost, ne_eq, not_true_eq_false, if_false, hlen, if_true]

theorem submitHandler_published (appConfig : WebConfig) (env : WebEnv) (req : FormRequest)
    (hPost : req.Method = "POST") (h : formErrors req = []) :
    ∃ (n : Notification) (rest : List PublishCall),
      (submitHandler appConfig env req).published =
        ⟨.notification n, appConfig.SmnTopicNotificationUrn⟩ :: rest ∧
      (rest = [] ∨ rest = [⟨.hostingDetail
        ⟨req.subdomain_name, req.wordpress_theme, req.email⟩,
        appConfig.SmnTopicHostingUrn⟩]) := by
  unfold submitHandler
  simp only [hPost, ne_eq, not_true_eq_false, if_false, h, List.length_nil, gt_iff_lt,
    lt_self_iff_false]
  cases publishMessage env 0 with
  | some e => exact ⟨_, [], rfl, Or.inl rfl⟩
  | none =>
    cases publishMessage env 1 with
    | some e => exact ⟨_, _, rfl, Or.inr rfl⟩
    | none => exact ⟨_, _, rfl, Or.inr rfl⟩

/-- C16. For every POST request the handler publishes only when the whole form is valid: a
call of `PublishMessage` is made only if the subdomain has 1 to 63 characters, all
lowercase letters, digits or hyphens, with no hyphen first or last, the theme is one of
the three allowed themes and the email matches the address pattern; if one of the three
fails the response status is 400 and nothing is published; and a published hosting detail
carries exactly the submitted subdomain, theme and email. A valid form does lead to a
publish call. -/
theorem submit_publishes_only_valid (appConfig : WebConfig) (env : WebEnv)
    (req : FormRequest) (hPost : req.Method = "POST") :
    ((submitHandler appConfig env req).published ≠ [] →
      validSubdomain req.subdomain_name.toList = true ∧ req.wordpress_theme ∈ themeList ∧
        MatchString emailRegex req.email = true) ∧
    (¬ (validSubdomain req.subdomain_name.toList = true ∧ req.wordpress_theme ∈ themeList ∧
        MatchString emailRegex req.email = true) →
      statusOf (submitHandler appConfig env req).response = 400 ∧
        (submitHandler appConfig env req).published = []) ∧
    (∀ call ∈ (submitHandler appConfig env req).published, ∀ d : HostingDetail,
      call.data = .hostingDetail d →
      d = ⟨req.subdomain_name, req.wordpress_theme, req.email⟩) ∧
    (validSubdomain req.subdomain_name.toList = true ∧ req.wordpress_theme ∈ themeList ∧
        MatchString emailRegex req.email = true →
      (submitHandler appConfig env req).published ≠ []) := by
  have hinv : ¬ (validSubdomain req.subdomain_name.toList = true ∧
      req.wordpress_theme ∈ themeList ∧ MatchString emailRegex req.email = true) →
      submitHandler appConfig env req = ⟨.writeHeader 400 :: renderForm env, []⟩ :=
    fun h => submitHandler_invalid appConfig env req hPost
      (fun hnil => h ((formErrors_eq_nil_iff req).mp hnil))
  refine ⟨?_, ?_, ?_, ?_⟩
  · intro hpub
    by_contra hc
    rw [hinv hc] at hpub
    exact hpub rfl
  · intro hc
    rw [hinv hc]
    exact ⟨rfl, rfl⟩
  · intro call hcall d hd
    by_cases hv : formErrors req = []
    · obtain ⟨n, rest, hp, hrest⟩ := submitHandler_published appConfig env req hPost hv
      rw [hp] at hcall
      rcases List.mem_cons.mp hcall with h | h
      · rw [h] at hd
        exact SmnData.noConfusion hd
      · rcases hrest with hr | hr
        · rw [hr] at h
          exact absurd h (List.not_mem_nil _)
        · rw [hr, List.mem_singleton] at h
          rw [h] at hd
          exact (SmnData.hostingDetail.inj hd).symm
    · rw [submitHandler_invalid appConfig env req hPost hv] at hcall
      exact absurd hcall (List.not_mem_nil _)
  · intro hvalid
    obtain ⟨n, rest, hp, _⟩ := submitHandler_published appConfig env req hPost
      ((formErrors_eq_nil_iff req).mpr hvalid)
    rw [hp]
    exact List.cons_ne_nil _ _

theorem submit_publishes_only_valid_witness :
    statusOf (submitHandler webConfigDefault webEnvOk
      ⟨"POST", "-acme", "twentytwentyfour", "a@b.com"⟩).response = 400 ∧
    (submitHandler webConfigDefault webEnvOk
      ⟨"POST", "-acme", "twentytwentyfour", "a@b.com"⟩).published = [] :=
  (submit_publishes_only_valid webConfigDefault webEnvOk
    ⟨"POST", "-acme", "twentytwentyfour", "a@b.com"⟩ rfl).2.1
    (fun h => absurd h.1 (by decide))

set_option maxRecDepth 100000 in
/-- A valid form on a working environment: the notification and the hosting detail are
published, in this order, and the form is rendered with status 200. -/
theorem submitHandler_valid_example :
    (submitHandler webConfigDefault webEnvOk
      ⟨"POST", "acme", "twentytwentyfour", "a@b.com"⟩).published.map (fun c => c.topic) =
      ["notification", "newhosting"] ∧
    statusOf (submitHandler webConfigDefault webEnvOk
      ⟨"POST", "acme", "twentytwentyfour", "a@b.com"⟩).response = 200 ∧
    MatchString emailRegex "a@b.com" = true ∧
    MatchString emailRegex "a@b" = false ∧
    MatchString subdomainRegex "acme" = true := by
  refine ⟨by decide, by decide, by decide, by decide, by decide⟩

end HostingBuilder
